import Mathlib

/-!
Verification of the iCloud Reminders CLI core (Go sources) against its
natural-language specification.  The Go code is shallowly embedded:
bytes are `Nat` (well-formed streams have entries < 256), Go strings are
Lean `String`s together with their UTF-8 byte encoding, Go maps are
association lists with map (lookup) semantics, and every network call is
parameterized by the response the remote end would return, so that
"issues a network call" is observable as data.
-/

set_option maxHeartbeats 1000000
set_option maxRecDepth 4096

namespace ICR

/-! ## Protobuf varint and field encoding (go/utils/utils.go: EncodeVarint, EncodeField) -/

/-- Go `EncodeVarint`: little-endian base-128 groups, high bit marks continuation.
The Go loop emits `byte(v&0x7f)|0x80` while `v > 127`, shifting right by 7,
then the final byte. -/
def encodeVarint (v : Nat) : List Nat :=
  if h : v > 127 then (v % 128 + 128) :: encodeVarint (v / 128) else [v]
termination_by v
decreasing_by exact Nat.div_lt_self (by omega) (by omega)

/-- Inverse of `encodeVarint`, used to state decoding claims.  Returns the
decoded value and the unconsumed rest. -/
def decodeVarint : List Nat → Option (Nat × List Nat)
  | [] => none
  | b :: rest =>
    if b < 128 then some (b, rest)
    else
      match decodeVarint rest with
      | some (v, rest2) => some (v * 128 + (b - 128), rest2)
      | none => none

/-- Payload of a protobuf field: Go `EncodeField` accepts a `uint64` for wire
type 0 and a `[]byte` for wire type 2. -/
inductive PBData where
  | u (v : Nat)
  | b (bs : List Nat)
deriving DecidableEq, Repr

/-- Go `EncodeField`: one tag byte `(fieldNum<<3)|wireType` followed by a
varint (wire type 0) or a length-prefixed byte string (wire type 2).
Any other combination returns nil in Go. -/
def encodeField (fieldNum wireType : Nat) (data : PBData) : List Nat :=
  let tag := (fieldNum * 8 + wireType) % 256
  match wireType, data with
  | 0, .u v => tag :: encodeVarint v
  | 2, .b bs => tag :: (encodeVarint bs.length ++ bs)
  | _, _ => []

theorem encodeVarint_unfold (v : Nat) :
    encodeVarint v = if 127 < v then (v % 128 + 128) :: encodeVarint (v / 128) else [v] := by
  rw [encodeVarint]
  by_cases h : 127 < v <;> simp [h]

theorem encodeVarint_small {v : Nat} (h : v ≤ 127) : encodeVarint v = [v] := by
  rw [encodeVarint_unfold]
  have : ¬ 127 < v := by omega
  simp [this]

theorem decodeVarint_encode (v : Nat) (rest : List Nat) :
    decodeVarint (encodeVarint v ++ rest) = some (v, rest) := by
  induction v using encodeVarint.induct with
  | case1 v h ih =>
    rw [encodeVarint]
    simp only [h, dite_true, List.cons_append, decodeVarint]
    have : ¬ (v % 128 + 128 < 128) := by omega
    simp only [this, if_false, ih]
    have h3 : v / 128 * 128 + (v % 128 + 128 - 128) = v := by omega
    rw [h3]
  | case2 v h =>
    rw [encodeVarint]
    simp only [h, dite_false, List.cons_append, List.nil_append, decodeVarint]
    have : v < 128 := by omega
    simp [this]

theorem decodeVarint_shrink : ∀ (bs : List Nat) (p : Nat × List Nat),
    decodeVarint bs = some p → p.2.length < bs.length := by
  intro bs
  induction bs with
  | nil => intro p h; simp [decodeVarint] at h
  | cons b rest ih =>
    intro p h
    simp only [decodeVarint] at h
    by_cases hb : b < 128
    · simp [hb] at h
      subst h
      simp
    · simp only [hb, if_false] at h
      match hrec : decodeVarint rest with
      | none => rw [hrec] at h; exact absurd h (by simp)
      | some (v, rest2) =>
        rw [hrec] at h
        simp at h
        have := ih (v, rest2) hrec
        simp at this
        subst h
        simp
        omega

/-! ## The CRDT title document layout (go/utils/utils.go: position, EncodeTitle) -/

/-- Go `position`: a CRDT position message `{field1: replica, field2: offset}`.
Offset `-1` is encoded with the sentinel `0xFFFFFFFF` as an unsigned varint;
other offsets go through Go's `uint64(offset)` conversion (two's-complement
wraparound for negatives, identity for the nonnegative offsets the code uses). -/
def position (replica : Nat) (offset : Int) : List Nat :=
  let replicaField := encodeField 1 0 (.u replica)
  if offset = -1 then
    let sentinelTag := (2 * 8 + 0) % 256
    replicaField ++ (sentinelTag :: encodeVarint 0xFFFFFFFF)
  else
    replicaField ++ encodeField 2 0 (.u ((offset % (2 : Int) ^ 64).toNat))

/-- UTF-8 encoding of one Unicode scalar value (arithmetic form of the
standard shift/mask construction). -/
def utf8EncodeChar (c : Char) : List Nat :=
  let n := c.toNat
  if n < 0x80 then [n]
  else if n < 0x800 then [0xC0 + n / 64, 0x80 + n % 64]
  else if n < 0x10000 then [0xE0 + n / 4096, 0x80 + n / 64 % 64, 0x80 + n % 64]
  else [0xF0 + n / 262144, 0x80 + n / 4096 % 64, 0x80 + n / 64 % 64, 0x80 + n % 64]

/-- UTF-8 bytes of a character sequence: Go's `[]byte(s)`. -/
def utf8Encode : List Char → List Nat
  | [] => []
  | c :: cs => utf8EncodeChar c ++ utf8Encode cs

/-- Go `utf8.RuneCountInString` on a (valid) string: the character count. -/
def charLen (title : String) : Nat := title.data.length

/-- CRDT Op #1 of `EncodeTitle`: initial position marker. -/
def op1 : List Nat :=
  encodeField 1 2 (.b (position 0 0)) ++ encodeField 2 0 (.u 0) ++
  encodeField 3 2 (.b (position 0 0)) ++ encodeField 5 0 (.u 1)

/-- CRDT Op #2 of `EncodeTitle`: the single content insert; field 2 is the
CHARACTER count of the title. -/
def op2 (title : String) : List Nat :=
  encodeField 1 2 (.b (position 1 0)) ++ encodeField 2 0 (.u (charLen title)) ++
  encodeField 3 2 (.b (position 1 0)) ++ encodeField 5 0 (.u 2)

/-- CRDT Op #3 of `EncodeTitle`: the terminating sentinel (offset -1, no field 5). -/
def op3 : List Nat :=
  encodeField 1 2 (.b (position 0 (-1))) ++ encodeField 2 0 (.u 0) ++
  encodeField 3 2 (.b (position 0 (-1)))

/-- Metadata clock payload: field 1 carries the character count. -/
def clockPayload (title : String) : List Nat := encodeField 1 0 (.u (charLen title))

/-- Metadata replica payload: field 1 carries the constant 1. -/
def replicaPayload : List Nat := encodeField 1 0 (.u 1)

/-- Metadata uuid entry: document uuid (field 1), clock (field 2), replica (field 2).
The 16 random bytes produced by Go's `generateUUID` are passed in as `uuid`. -/
def uuidEntry (uuid : List Nat) (title : String) : List Nat :=
  encodeField 1 2 (.b uuid) ++ encodeField 2 2 (.b (clockPayload title)) ++
  encodeField 2 2 (.b replicaPayload)

/-- Metadata block (field 4 of the note). -/
def metadata (uuid : List Nat) (title : String) : List Nat :=
  encodeField 1 2 (.b (uuidEntry uuid title))

/-- Attribute run (field 5 of the note): length = character count. -/
def attrRun (title : String) : List Nat := encodeField 1 0 (.u (charLen title))

/-- Note content (field 3 of the document). -/
def noteMsg (uuid : List Nat) (title : String) : List Nat :=
  encodeField 2 2 (.b (utf8Encode title.data)) ++ encodeField 3 2 (.b op1) ++
  encodeField 3 2 (.b (op2 title)) ++ encodeField 3 2 (.b op3) ++
  encodeField 4 2 (.b (metadata uuid title)) ++ encodeField 5 2 (.b (attrRun title))

/-- Document message (field 2 of the outer wrapper). -/
def docMsg (uuid : List Nat) (title : String) : List Nat :=
  encodeField 1 0 (.u 0) ++ encodeField 2 0 (.u 0) ++
  encodeField 3 2 (.b (noteMsg uuid title))

/-- Outer wrapper: the full protobuf message that gets gzip-compressed. -/
def outerMsg (uuid : List Nat) (title : String) : List Nat :=
  encodeField 1 0 (.u 0) ++ encodeField 2 2 (.b (docMsg uuid title))

/-! ## A protobuf field scanner, used to state what the encoded messages carry -/

/-- Parse a protobuf message into its `(fieldNum, wireType, payload)` list.
Only the two wire shapes the codec uses (varint and length-prefixed bytes)
are accepted. -/
def parseFields : List Nat → Option (List (Nat × Nat × PBData))
  | [] => some []
  | tag :: rest =>
    if tag % 8 = 0 then
      match h : decodeVarint rest with
      | some (v, rest2) =>
        match parseFields rest2 with
        | some fs => some ((tag / 8, 0, .u v) :: fs)
        | none => none
      | none => none
    else if tag % 8 = 2 then
      match h : decodeVarint rest with
      | some (len, rest2) =>
        if len ≤ rest2.length then
          match parseFields (rest2.drop len) with
          | some fs => some ((tag / 8, 2, .b (rest2.take len)) :: fs)
          | none => none
        else none
      | none => none
    else none
termination_by bs => bs.length
decreasing_by
  · have := decodeVarint_shrink rest (v, rest2) h
    simp at this
    simp
    omega
  · have := decodeVarint_shrink rest (len, rest2) h
    simp at this
    simp [List.length_drop]
    omega

theorem parseFields_varint (f v : Nat) (rest : List Nat) (hf : f < 16) :
    parseFields (encodeField f 0 (.u v) ++ rest) =
      (parseFields rest).map (fun fs => (f, 0, PBData.u v) :: fs) := by
  have htag : (f * 8 + 0) % 256 = f * 8 := by omega
  simp only [encodeField, htag, List.cons_append]
  rw [parseFields]
  have h8 : f * 8 % 8 = 0 := by omega
  rw [if_pos h8]
  have hdiv : f * 8 / 8 = f := by omega
  split
  next v1 rest2 heq =>
    rw [decodeVarint_encode] at heq
    have hv : v1 = v ∧ rest2 = rest := by
      have := Option.some.inj heq
      exact ⟨(Prod.mk.inj this).1.symm, (Prod.mk.inj this).2.symm⟩
    obtain ⟨rfl, rfl⟩ := hv
    rw [hdiv]
    cases hx : parseFields rest2 <;> simp [hx]
  next heq =>
    rw [decodeVarint_encode] at heq
    exact absurd heq (by simp)

theorem parseFields_bytes (f : Nat) (bs rest : List Nat) (hf : f < 16) :
    parseFields (encodeField f 2 (.b bs) ++ rest) =
      (parseFields rest).map (fun fs => (f, 2, PBData.b bs) :: fs) := by
  have htag : (f * 8 + 2) % 256 = f * 8 + 2 := by omega
  simp only [encodeField, htag, List.cons_append, List.append_assoc]
  rw [parseFields]
  have h8 : ¬ (f * 8 + 2) % 8 = 0 := by omega
  have h82 : (f * 8 + 2) % 8 = 2 := by omega
  rw [if_neg h8, if_pos h82]
  have hdiv : (f * 8 + 2) / 8 = f := by omega
  split
  next len rest2 heq =>
    rw [decodeVarint_encode] at heq
    have hv : len = bs.length ∧ rest2 = bs ++ rest := by
      have := Option.some.inj heq
      exact ⟨(Prod.mk.inj this).1.symm, (Prod.mk.inj this).2.symm⟩
    obtain ⟨rfl, rfl⟩ := hv
    have hlen : bs.length ≤ (bs ++ rest).length := by simp
    rw [if_pos hlen]
    have ht : (bs ++ rest).take bs.length = bs := List.take_left bs rest
    have hd : (bs ++ rest).drop bs.length = rest := List.drop_left bs rest
    rw [ht, hd, hdiv]
    cases parseFields rest <;> simp
  next heq =>
    rw [decodeVarint_encode] at heq
    exact absurd heq (by simp)

theorem parseFields_nil : parseFields [] = some [] := by rw [parseFields]

theorem parseFields_varint_last (f v : Nat) (hf : f < 16) :
    parseFields (encodeField f 0 (.u v)) = some [(f, 0, PBData.u v)] := by
  have := parseFields_varint f v [] hf
  rw [List.append_nil] at this
  rw [this, parseFields_nil]
  rfl

theorem parseFields_bytes_last (f : Nat) (bs : List Nat) (hf : f < 16) :
    parseFields (encodeField f 2 (.b bs)) = some [(f, 2, PBData.b bs)] := by
  have := parseFields_bytes f bs [] hf
  rw [List.append_nil] at this
  rw [this, parseFields_nil]
  rfl

/-- C8: the sentinel offset in `position` for logical offset -1 is the tag byte
for field 2 / wire type 0 followed by the five bytes ff ff ff ff 0f, which
decode as the unsigned 32-bit all-ones value 0xFFFFFFFF; it is not the 64-bit
sign-extended (ten byte) varint a negative encoding would produce.  `op3`,
the terminating operation of every encoded title, embeds this sentinel in its
two position fields. -/
theorem c8_sentinel_encoding :
    position 0 (-1) = [0x08, 0x00, 0x10, 0xff, 0xff, 0xff, 0xff, 0x0f] ∧
    decodeVarint [0xff, 0xff, 0xff, 0xff, 0x0f] = some (0xFFFFFFFF, []) ∧
    op3 = encodeField 1 2 (.b (position 0 (-1))) ++ encodeField 2 0 (.u 0) ++
      encodeField 3 2 (.b (position 0 (-1))) ∧
    encodeVarint 0xFFFFFFFF ≠ encodeVarint (2 ^ 64 - 1) := by
  have h1 : encodeVarint 0xFFFFFFFF = [0xff, 0xff, 0xff, 0xff, 0x0f] := by
    simp [encodeVarint_unfold]
  have h2 : encodeVarint (2 ^ 64 - 1) =
      [255, 255, 255, 255, 255, 255, 255, 255, 255, 1] := by
    simp [encodeVarint_unfold]
  have h0 : encodeVarint 0 = [0] := encodeVarint_small (by omega)
  refine ⟨?_, by decide, rfl, ?_⟩
  · simp [position, encodeField, h0, h1]
  · rw [h1, h2]
    decide

/-- C4: in the encoded title, the content-insert operation's length field
(field 2 of op #2) and the attribute run's length field (field 1) both decode
to the rune count `title.data.length` of the input — the Unicode character
count, not the UTF-8 byte count. -/
theorem c4_char_count_invariant (title : String) :
    parseFields (op2 title) =
      some [(1, 2, .b (position 1 0)), (2, 0, .u title.data.length),
            (3, 2, .b (position 1 0)), (5, 0, .u 2)] ∧
    parseFields (attrRun title) = some [(1, 0, .u title.data.length)] := by
  constructor
  · rw [op2]
    simp only [List.append_assoc]
    rw [parseFields_bytes 1 _ _ (by omega), parseFields_varint 2 _ _ (by omega),
      parseFields_bytes 3 _ _ (by omega), parseFields_varint_last 5 _ (by omega)]
    rfl
  · rw [attrRun, parseFields_varint_last 1 _ (by omega)]
    rfl

/-- C5 counterexample: the claim says the metadata block's clock value and
replica id are BOTH the character count.  For the two-character title "ab"
the uuid entry parses with clock payload encoding 2 but replica payload
encoding the constant 1, and 1 ≠ 2. -/
theorem c5_replica_not_charlen :
    parseFields (uuidEntry (List.replicate 16 0) "ab") =
      some [(1, 2, .b (List.replicate 16 0)), (2, 2, .b (clockPayload "ab")),
            (2, 2, .b replicaPayload)] ∧
    parseFields (clockPayload "ab") = some [(1, 0, .u 2)] ∧
    parseFields replicaPayload = some [(1, 0, .u 1)] ∧
    charLen "ab" = 2 ∧ (1 : Nat) ≠ 2 := by
  refine ⟨?_, ?_, ?_, by decide, by decide⟩
  · rw [uuidEntry]
    simp only [List.append_assoc]
    rw [parseFields_bytes 1 _ _ (by omega), parseFields_bytes 2 _ _ (by omega),
      parseFields_bytes_last 2 _ (by omega)]
    rfl
  · rw [clockPayload, parseFields_varint_last 1 _ (by omega)]
    rfl
  · rw [replicaPayload, parseFields_varint_last 1 _ (by omega)]

/-- C5 (amended): the metadata block of an encoded title carries the
16-byte document identifier handed to the encoder (the bytes Go's
`generateUUID` produced), a clock value equal to the character count of the
title, and a replica id equal to the constant 1. -/
theorem c5_metadata_contents (uuid : List Nat) (title : String)
    (hu : uuid.length = 16) :
    parseFields (metadata uuid title) = some [(1, 2, .b (uuidEntry uuid title))] ∧
    parseFields (uuidEntry uuid title) =
      some [(1, 2, .b uuid), (2, 2, .b (clockPayload title)),
            (2, 2, .b replicaPayload)] ∧
    parseFields (clockPayload title) = some [(1, 0, .u title.data.length)] ∧
    parseFields replicaPayload = some [(1, 0, .u 1)] := by
  refine ⟨?_, ?_, ?_, ?_⟩
  · rw [metadata, parseFields_bytes_last 1 _ (by omega)]
  · rw [uuidEntry]
    simp only [List.append_assoc]
    rw [parseFields_bytes 1 _ _ (by omega), parseFields_bytes 2 _ _ (by omega),
      parseFields_bytes_last 2 _ (by omega)]
    rfl
  · rw [clockPayload, parseFields_varint_last 1 _ (by omega)]
    rfl
  · rw [replicaPayload, parseFields_varint_last 1 _ (by omega)]

/-- C5 witness: the amended metadata statement at a concrete 16-byte uuid and
the title "ab". -/
theorem c5_metadata_contents_witness :
    parseFields (metadata (List.replicate 16 7) "ab") =
      some [(1, 2, .b (uuidEntry (List.replicate 16 7) "ab"))] ∧
    parseFields (uuidEntry (List.replicate 16 7) "ab") =
      some [(1, 2, .b (List.replicate 16 7)), (2, 2, .b (clockPayload "ab")),
            (2, 2, .b replicaPayload)] ∧
    parseFields (clockPayload "ab") = some [(1, 0, .u ("ab".data.length))] ∧
    parseFields replicaPayload = some [(1, 0, .u 1)] :=
  c5_metadata_contents (List.replicate 16 7) "ab" (by decide)

/-! ## UTF-8 decoding as Go performs it (rune spans with U+FFFD for invalid bytes) -/

/-- Is `b` a UTF-8 continuation byte, `0x80..0xBF`. -/
def ccont (b : Nat) : Bool := 128 ≤ b && b ≤ 191

/-- One decoding pass of Go's `utf8.DecodeRune` loop, driven by a fuel
counter (one unit per decoded rune; `runeSpans` supplies the list length,
which always suffices since every step consumes at least one byte).
Lookahead bytes are read with default 256, which fails every acceptance
range exactly as a missing byte does in Go (truncated sequences decode as
U+FFFD with width 1). -/
def rsF : Nat → List Nat → List (Nat × List Nat)
  | 0, _ => []
  | _ + 1, [] => []
  | fuel + 1, b0 :: t0 =>
    if b0 < 128 then (b0, [b0]) :: rsF fuel t0
    else if b0 < 194 then (0xFFFD, [b0]) :: rsF fuel t0
    else if b0 ≤ 223 then
      if ccont (t0.getD 0 256) then
        ((b0 - 192) * 64 + (t0.getD 0 256 - 128), [b0, t0.getD 0 256]) ::
          rsF fuel (t0.drop 1)
      else (0xFFFD, [b0]) :: rsF fuel t0
    else if b0 ≤ 239 then
      if (if b0 = 224 then 160 ≤ t0.getD 0 256 && t0.getD 0 256 ≤ 191
          else if b0 = 237 then 128 ≤ t0.getD 0 256 && t0.getD 0 256 ≤ 159
          else ccont (t0.getD 0 256)) && ccont (t0.getD 1 256) then
        ((b0 - 224) * 4096 + (t0.getD 0 256 - 128) * 64 + (t0.getD 1 256 - 128),
          [b0, t0.getD 0 256, t0.getD 1 256]) :: rsF fuel (t0.drop 2)
      else (0xFFFD, [b0]) :: rsF fuel t0
    else if b0 ≤ 244 then
      if (if b0 = 240 then 144 ≤ t0.getD 0 256 && t0.getD 0 256 ≤ 191
          else if b0 = 244 then 128 ≤ t0.getD 0 256 && t0.getD 0 256 ≤ 143
          else ccont (t0.getD 0 256)) && ccont (t0.getD 1 256) &&
          ccont (t0.getD 2 256) then
        ((b0 - 240) * 262144 + (t0.getD 0 256 - 128) * 4096 +
            (t0.getD 1 256 - 128) * 64 + (t0.getD 2 256 - 128),
          [b0, t0.getD 0 256, t0.getD 1 256, t0.getD 2 256]) :: rsF fuel (t0.drop 3)
      else (0xFFFD, [b0]) :: rsF fuel t0
    else (0xFFFD, [b0]) :: rsF fuel t0

/-- Decompose a byte string into rune spans `(rune, bytes)` exactly as Go's
`utf8.DecodeRune` loop does: ASCII bytes decode to themselves, well-formed
multi-byte sequences (with the surrogate and overlong exclusions of Go's
accept ranges) decode to their scalar value, and any invalid byte decodes to
U+FFFD with width 1. -/
def runeSpans (bs : List Nat) : List (Nat × List Nat) := rsF bs.length bs

/-- The printable class of the extraction regex: everything except
C0 controls (≤ 0x1f), DEL, and C1 controls (0x7f..0x9f). -/
def printableR (r : Nat) : Bool := !(r ≤ 31 || (127 ≤ r && r ≤ 159))

/-- Go `unicode.IsSpace`: the White_Space runes. -/
def isSpaceRune (r : Nat) : Bool :=
  r = 9 || r = 10 || r = 11 || r = 12 || r = 13 || r = 32 || r = 0x85 || r = 0xA0 ||
  r = 0x1680 || (0x2000 ≤ r && r ≤ 0x200A) || r = 0x2028 || r = 0x2029 ||
  r = 0x202F || r = 0x205F || r = 0x3000

/-- Maximal runs of printable runes, in order of appearance — the successive
matches of Go's regexp scan (before the length-2 filter). -/
def groupsAux (acc : List (Nat × List Nat)) :
    List (Nat × List Nat) → List (List (Nat × List Nat))
  | [] => if acc = [] then [] else [acc.reverse]
  | s :: ss =>
    if printableR s.1 then groupsAux (s :: acc) ss
    else if acc = [] then groupsAux [] ss else acc.reverse :: groupsAux [] ss

def printableGroups (spans : List (Nat × List Nat)) : List (List (Nat × List Nat)) :=
  groupsAux [] spans

/-- The byte content of a run of spans. -/
def spanBytes : List (Nat × List Nat) → List Nat
  | [] => []
  | s :: t => s.2 ++ spanBytes t

/-- Go `strings.TrimSpace` on a run of spans: drop whitespace runes from
both ends. -/
def trimSpans (g : List (Nat × List Nat)) : List (Nat × List Nat) :=
  ((g.dropWhile (fun p => isSpaceRune p.1)).reverse.dropWhile
    (fun p => isSpaceRune p.1)).reverse

/-- The `ExtractTitle` match loop: iterate the regexp matches in order,
trim each, and return the first whose trimmed rune count is at least 2. -/
def firstGoodMatch : List (List (Nat × List Nat)) → List Nat
  | [] => []
  | g :: gs =>
    let t := trimSpans g
    if 2 ≤ t.length then spanBytes t else firstGoodMatch gs

/-! ## Base64 (standard alphabet with padding) and the gzip stream model -/

def b64Alphabet : List Char :=
  "ABCDEFGHIJKLMNOPQRSTUVWXYZabcdefghijklmnopqrstuvwxyz0123456789+/".data

def b64Char (n : Nat) : Char := b64Alphabet.getD n 'A'

def idxOfAux : List Char → Char → Nat → Option Nat
  | [], _, _ => none
  | a :: t, c, i => if a = c then some i else idxOfAux t c (i + 1)

def b64Index (c : Char) : Option Nat := idxOfAux b64Alphabet c 0

/-- Standard base64 encoding of a byte string (Go `base64.StdEncoding.EncodeToString`). -/
def base64Encode : List Nat → List Char
  | [] => []
  | [b0] => [b64Char (b0 / 4), b64Char (b0 % 4 * 16), '=', '=']
  | [b0, b1] => [b64Char (b0 / 4), b64Char (b0 % 4 * 16 + b1 / 16),
      b64Char (b1 % 16 * 4), '=']
  | b0 :: b1 :: b2 :: rest =>
    b64Char (b0 / 4) :: b64Char (b0 % 4 * 16 + b1 / 16) ::
      b64Char (b1 % 16 * 4 + b2 / 64) :: b64Char (b2 % 64) :: base64Encode rest

/-- Standard base64 decoding (Go `base64.StdEncoding.DecodeString`): the input
must be a sequence of 4-character quanta; `=` padding may only close the final
quantum; invalid characters are rejected. -/
def base64Decode : List Char → Option (List Nat)
  | [] => some []
  | c0 :: c1 :: c2 :: c3 :: rest =>
    match b64Index c0, b64Index c1 with
    | some n0, some n1 =>
      if c2 = '=' then
        if c3 = '=' ∧ rest = [] then some [n0 * 4 + n1 / 16] else none
      else
        match b64Index c2 with
        | some n2 =>
          if c3 = '=' then
            if rest = [] then some [n0 * 4 + n1 / 16, n1 % 16 * 16 + n2 / 4] else none
          else
            match b64Index c3 with
            | some n3 =>
              match base64Decode rest with
              | some bs =>
                some ((n0 * 4 + n1 / 16) :: (n1 % 16 * 16 + n2 / 4) ::
                  (n2 % 4 * 64 + n3) :: bs)
              | none => none
            | none => none
        | none => none
    | _, _ => none
  | _ => none

/-- Model of Go's gzip compression (`gzip.NewWriter`/`Write`/`Close`).
The repository depends on exactly two properties of the DEFLATE stream: the
output begins with the gzip magic bytes 1f 8b (checked by `ExtractTitle`),
and decompression recovers the compressed payload.  The model realizes the
stream as the magic prefix followed by the raw payload. -/
def gzipCompress (bs : List Nat) : List Nat := 0x1f :: 0x8b :: bs

/-- Model of Go's `gzip.NewReader` + `io.ReadAll`: succeeds on model streams
(magic prefix), fails otherwise. -/
def gzipDecompress : List Nat → Option (List Nat)
  | 0x1f :: 0x8b :: rest => some rest
  | _ => none

/-! ## EncodeTitle and ExtractTitle (go/utils/utils.go) -/

/-- Go `EncodeTitle`: assemble the CRDT message, gzip it, base64-encode it.
The 16 random bytes of `generateUUID` are a parameter.  (The Go function can
only fail on a gzip write error, which the stream model cannot produce.) -/
def encodeTitle (uuid : List Nat) (title : String) : String :=
  String.mk (base64Encode (gzipCompress (outerMsg uuid title)))

/-- A Go byte string rendered as a Lean string: each decoded rune becomes a
character (invalid bytes show as U+FFFD, as they do when a Go string is
interpreted as runes). -/
def stringOfBytes (bs : List Nat) : String :=
  String.mk ((runeSpans bs).map (fun p => Char.ofNat p.1))

/-- Go `ExtractTitle`: base64-decode; on the gzip magic, decompress and return
the first printable run of trimmed rune length ≥ 2; otherwise return the
trimmed raw text; any decoding failure degrades to "".  (In the gzip stream
model, `gzipDecompress` succeeds exactly when the magic bytes are present, so
its `none` branch is Go's non-gzip branch.) -/
def extractTitle (tdB64 : String) : String :=
  if tdB64 = "" then ""
  else
    match base64Decode tdB64.data with
    | none => ""
    | some raw =>
      match gzipDecompress raw with
      | some dec =>
        stringOfBytes (firstGoodMatch
          ((printableGroups (runeSpans dec)).filter (fun g => 2 ≤ g.length)))
      | none => stringOfBytes (spanBytes (trimSpans (runeSpans raw)))

/-- Go `strings.TrimSpace` on a (valid) string. -/
def trimChars (l : List Char) : List Char :=
  ((l.dropWhile (fun c => isSpaceRune c.toNat)).reverse.dropWhile
    (fun c => isSpaceRune c.toNat)).reverse

def goTrimSpace (s : String) : String := String.mk (trimChars s.data)

/-! ## Round-trip support: rune spans of well-formed UTF-8 -/

theorem charValid (c : Char) :
    c.toNat < 55296 ∨ (57343 < c.toNat ∧ c.toNat < 1114112) := c.valid

/-- The span of each character: its scalar value with its UTF-8 bytes. -/
def charSpans (l : List Char) : List (Nat × List Nat) :=
  l.map (fun c => (c.toNat, utf8EncodeChar c))

theorem rsF_fuel : ∀ (f g : Nat) (bs : List Nat), bs.length ≤ f → bs.length ≤ g →
    rsF f bs = rsF g bs := by
  intro f
  induction f with
  | zero =>
    intro g bs h1 _
    have hb : bs = [] := by cases bs <;> simp_all
    subst hb
    cases g <;> rfl
  | succ f ih =>
    intro g bs h1 h2
    cases bs with
    | nil => cases g <;> rfl
    | cons b0 t0 =>
      cases g with
      | zero => simp at h2
      | succ g' =>
        have ht : t0.length ≤ f := by simp at h1; omega
        have ht' : t0.length ≤ g' := by simp at h2; omega
        have hd1 : (t0.drop 1).length ≤ f := by simp; omega
        have hd1' : (t0.drop 1).length ≤ g' := by simp; omega
        have hd2 : (t0.drop 2).length ≤ f := by simp; omega
        have hd2' : (t0.drop 2).length ≤ g' := by simp; omega
        have hd3 : (t0.drop 3).length ≤ f := by simp; omega
        have hd3' : (t0.drop 3).length ≤ g' := by simp; omega
        rw [rsF, rsF]
        by_cases c1 : b0 < 128
        · rw [if_pos c1, if_pos c1, ih g' t0 ht ht']
        rw [if_neg c1, if_neg c1]
        by_cases c2 : b0 < 194
        · rw [if_pos c2, if_pos c2, ih g' t0 ht ht']
        rw [if_neg c2, if_neg c2]
        by_cases c3 : b0 ≤ 223
        · rw [if_pos c3, if_pos c3]
          by_cases c3a : ccont (t0.getD 0 256) = true
          · rw [if_pos c3a, if_pos c3a, ih g' (t0.drop 1) hd1 hd1']
          · rw [if_neg c3a, if_neg c3a, ih g' t0 ht ht']
        rw [if_neg c3, if_neg c3]
        by_cases c4 : b0 ≤ 239
        · rw [if_pos c4, if_pos c4]
          by_cases c4a : ((if b0 = 224 then 160 ≤ t0.getD 0 256 && t0.getD 0 256 ≤ 191
              else if b0 = 237 then 128 ≤ t0.getD 0 256 && t0.getD 0 256 ≤ 159
              else ccont (t0.getD 0 256)) && ccont (t0.getD 1 256)) = true
          · rw [if_pos c4a, if_pos c4a, ih g' (t0.drop 2) hd2 hd2']
          · rw [if_neg c4a, if_neg c4a, ih g' t0 ht ht']
        rw [if_neg c4, if_neg c4]
        by_cases c5 : b0 ≤ 244
        · rw [if_pos c5, if_pos c5]
          by_cases c5a : ((if b0 = 240 then 144 ≤ t0.getD 0 256 && t0.getD 0 256 ≤ 191
              else if b0 = 244 then 128 ≤ t0.getD 0 256 && t0.getD 0 256 ≤ 143
              else ccont (t0.getD 0 256)) && ccont (t0.getD 1 256) &&
              ccont (t0.getD 2 256)) = true
          · rw [if_pos c5a, if_pos c5a, ih g' (t0.drop 3) hd3 hd3']
          · rw [if_neg c5a, if_neg c5a, ih g' t0 ht ht']
        rw [if_neg c5, if_neg c5, ih g' t0 ht ht']

theorem rs_ascii {b : Nat} (t : List Nat) (h : b < 128) :
    runeSpans (b :: t) = (b, [b]) :: runeSpans t := by
  show rsF (b :: t).length (b :: t) = _
  rw [List.length_cons, rsF]
  simp only [h, if_true]
  rfl

theorem rs_badstart {b : Nat} (t : List Nat) (h1 : 128 ≤ b) (h2 : b < 194) :
    runeSpans (b :: t) = (0xFFFD, [b]) :: runeSpans t := by
  show rsF (b :: t).length (b :: t) = _
  rw [List.length_cons, rsF]
  have h3 : ¬ b < 128 := by omega
  simp only [h3, if_false, h2, if_true]
  rfl

theorem rs_char (c : Char) (t : List Nat) :
    runeSpans (utf8EncodeChar c ++ t) = (c.toNat, utf8EncodeChar c) :: runeSpans t := by
  have hv := charValid c
  by_cases h1 : c.toNat < 128
  · simp only [utf8EncodeChar, h1, if_true, List.cons_append, List.nil_append]
    exact rs_ascii t h1
  by_cases h2 : c.toNat < 2048
  · simp only [utf8EncodeChar, h1, if_false, h2, if_true, List.cons_append, List.nil_append]
    show rsF _ _ = _
    rw [List.length_cons, List.length_cons, rsF]
    have e1 : ¬ 192 + c.toNat / 64 < 128 := by omega
    have e2 : ¬ 192 + c.toNat / 64 < 194 := by omega
    have e3 : 192 + c.toNat / 64 ≤ 223 := by omega
    rw [if_neg e1, if_neg e2, if_pos e3]
    simp only [List.getD_cons_zero, List.drop_one, List.tail_cons]
    have e4 : ccont (128 + c.toNat % 64) = true := by
      simp only [ccont, Bool.and_eq_true, decide_eq_true_eq]; omega
    rw [if_pos e4]
    have e5 : (192 + c.toNat / 64 - 192) * 64 + (128 + c.toNat % 64 - 128) = c.toNat := by
      omega
    rw [e5, rsF_fuel (t.length + 1) t.length t (by omega) (Nat.le_refl _)]
    rfl
  by_cases h3 : c.toNat < 65536
  · simp only [utf8EncodeChar, h1, if_false, h2, h3, if_true, List.cons_append,
      List.nil_append]
    show rsF _ _ = _
    rw [List.length_cons, List.length_cons, List.length_cons, rsF]
    have e1 : ¬ 224 + c.toNat / 4096 < 128 := by omega
    have e2 : ¬ 224 + c.toNat / 4096 < 194 := by omega
    have e3 : ¬ 224 + c.toNat / 4096 ≤ 223 := by omega
    have e4 : 224 + c.toNat / 4096 ≤ 239 := by omega
    rw [if_neg e1, if_neg e2, if_neg e3, if_pos e4]
    simp only [List.getD_cons_zero, List.getD_cons_succ]
    have e5 : ((if 224 + c.toNat / 4096 = 224 then
          160 ≤ 128 + c.toNat / 64 % 64 && 128 + c.toNat / 64 % 64 ≤ 191
        else if 224 + c.toNat / 4096 = 237 then
          128 ≤ 128 + c.toNat / 64 % 64 && 128 + c.toNat / 64 % 64 ≤ 159
        else ccont (128 + c.toNat / 64 % 64)) && ccont (128 + c.toNat % 64)) = true := by
      have hc : ccont (128 + c.toNat % 64) = true := by
        simp only [ccont, Bool.and_eq_true, decide_eq_true_eq]; omega
      rw [hc, Bool.and_true]
      by_cases hA : c.toNat / 4096 = 0
      · have hz : 224 + c.toNat / 4096 = 224 := by omega
        rw [if_pos hz]
        simp only [Bool.and_eq_true, decide_eq_true_eq]
        omega
      · by_cases hB : c.toNat / 4096 = 13
        · have hne : ¬ 224 + c.toNat / 4096 = 224 := by omega
          have heq : 224 + c.toNat / 4096 = 237 := by omega
          have hs : c.toNat < 55296 := by
            rcases hv with h | h
            · exact h
            · omega
          have hd1 : 832 ≤ c.toNat / 64 := by omega
          have hd2 : c.toNat / 64 < 864 := by omega
          rw [if_neg hne, if_pos heq]
          simp only [Bool.and_eq_true, decide_eq_true_eq]
          omega
        · have hne : ¬ 224 + c.toNat / 4096 = 224 := by omega
          have hne2 : ¬ 224 + c.toNat / 4096 = 237 := by omega
          rw [if_neg hne, if_neg hne2]
          simp only [ccont, Bool.and_eq_true, decide_eq_true_eq]
          omega
    rw [if_pos e5]
    simp only [List.drop_succ_cons, List.drop_zero]
    have e7 : (224 + c.toNat / 4096 - 224) * 4096 + (128 + c.toNat / 64 % 64 - 128) * 64 +
        (128 + c.toNat % 64 - 128) = c.toNat := by omega
    rw [e7, rsF_fuel (t.length + 1 + 1) t.length t (by omega) (Nat.le_refl _)]
    rfl
  · simp only [utf8EncodeChar, h1, if_false, h2, h3, List.cons_append, List.nil_append]
    show rsF _ _ = _
    rw [List.length_cons, List.length_cons, List.length_cons, List.length_cons, rsF]
    have hlt : c.toNat < 1114112 := by omega
    have e1 : ¬ 240 + c.toNat / 262144 < 128 := by omega
    have e2 : ¬ 240 + c.toNat / 262144 < 194 := by omega
    have e3 : ¬ 240 + c.toNat / 262144 ≤ 223 := by omega
    have e4 : ¬ 240 + c.toNat / 262144 ≤ 239 := by omega
    have e5 : 240 + c.toNat / 262144 ≤ 244 := by omega
    rw [if_neg e1, if_neg e2, if_neg e3, if_neg e4, if_pos e5]
    simp only [List.getD_cons_zero, List.getD_cons_succ]
    have e8 : ((if 240 + c.toNat / 262144 = 240 then
          144 ≤ 128 + c.toNat / 4096 % 64 && 128 + c.toNat / 4096 % 64 ≤ 191
        else if 240 + c.toNat / 262144 = 244 then
          128 ≤ 128 + c.toNat / 4096 % 64 && 128 + c.toNat / 4096 % 64 ≤ 143
        else ccont (128 + c.toNat / 4096 % 64)) && ccont (128 + c.toNat / 64 % 64) &&
        ccont (128 + c.toNat % 64)) = true := by
      have hc1 : ccont (128 + c.toNat / 64 % 64) = true := by
        simp only [ccont, Bool.and_eq_true, decide_eq_true_eq]; omega
      have hc2 : ccont (128 + c.toNat % 64) = true := by
        simp only [ccont, Bool.and_eq_true, decide_eq_true_eq]; omega
      rw [hc1, hc2, Bool.and_true, Bool.and_true]
      by_cases hA : c.toNat / 262144 = 0
      · have hz : 240 + c.toNat / 262144 = 240 := by omega
        rw [if_pos hz]
        simp only [Bool.and_eq_true, decide_eq_true_eq]
        omega
      · by_cases hB : c.toNat / 262144 = 4
        · have hne : ¬ 240 + c.toNat / 262144 = 240 := by omega
          have heq : 240 + c.toNat / 262144 = 244 := by omega
          have hd1 : 256 ≤ c.toNat / 4096 := by omega
          have hd2 : c.toNat / 4096 < 272 := by omega
          rw [if_neg hne, if_pos heq]
          simp only [Bool.and_eq_true, decide_eq_true_eq]
          omega
        · have hne : ¬ 240 + c.toNat / 262144 = 240 := by omega
          have hne2 : ¬ 240 + c.toNat / 262144 = 244 := by omega
          rw [if_neg hne, if_neg hne2]
          simp only [ccont, Bool.and_eq_true, decide_eq_true_eq]
          omega
    rw [if_pos e8]
    simp only [List.drop_succ_cons, List.drop_zero]
    have e9 : (240 + c.toNat / 262144 - 240) * 262144 +
        (128 + c.toNat / 4096 % 64 - 128) * 4096 +
        (128 + c.toNat / 64 % 64 - 128) * 64 + (128 + c.toNat % 64 - 128) = c.toNat := by
      omega
    rw [e9, rsF_fuel (t.length + 1 + 1 + 1) t.length t (by omega) (Nat.le_refl _)]
    rfl

theorem rs_string (l : List Char) (t : List Nat) :
    runeSpans (utf8Encode l ++ t) = charSpans l ++ runeSpans t := by
  induction l with
  | nil => simp [utf8Encode, charSpans]
  | cons c cs ih =>
    rw [utf8Encode, List.append_assoc, rs_char]
    simp [charSpans] at ih ⊢
    exact ih

theorem rs_nil : runeSpans [] = [] := rfl

theorem rs_string_closed (l : List Char) :
    runeSpans (utf8Encode l) = charSpans l := by
  have := rs_string l []
  simpa [rs_nil] using this

/-! ## Base64 round trip and byte bounds -/

theorem b64Index_char : ∀ n, n < 64 → b64Index (b64Char n) = some n := by decide

theorem b64Char_ne_pad : ∀ n, n < 64 → b64Char n ≠ '=' := by decide

theorem base64_roundtrip : ∀ (bs : List Nat), (∀ b ∈ bs, b < 256) →
    base64Decode (base64Encode bs) = some bs := by
  intro bs
  induction bs using base64Encode.induct with
  | case1 => intro _; rfl
  | case2 b0 =>
    intro h
    have h0 : b0 < 256 := h b0 (by simp)
    rw [base64Encode, base64Decode]
    rw [b64Index_char _ (by omega), b64Index_char _ (by omega)]
    simp only [if_pos rfl, and_self, if_true]
    have : b0 / 4 * 4 + b0 % 4 * 16 / 16 = b0 := by omega
    rw [this]
  | case3 b0 b1 =>
    intro h
    have h0 : b0 < 256 := h b0 (by simp)
    have h1 : b1 < 256 := h b1 (by simp)
    rw [base64Encode, base64Decode]
    rw [b64Index_char _ (by omega), b64Index_char _ (by omega)]
    have hne : b64Char (b1 % 16 * 4) ≠ '=' := b64Char_ne_pad _ (by omega)
    simp only [hne, if_false]
    rw [b64Index_char _ (by omega)]
    simp only [if_pos rfl, if_true]
    have e1 : b0 / 4 * 4 + (b0 % 4 * 16 + b1 / 16) / 16 = b0 := by omega
    have e2 : (b0 % 4 * 16 + b1 / 16) % 16 * 16 + b1 % 16 * 4 / 4 = b1 := by omega
    rw [e1, e2]
  | case4 b0 b1 b2 rest ih =>
    intro h
    have h0 : b0 < 256 := h b0 (by simp)
    have h1 : b1 < 256 := h b1 (by simp)
    have h2 : b2 < 256 := h b2 (by simp)
    have hr : ∀ b ∈ rest, b < 256 := fun b hb => h b (by simp [hb])
    rw [base64Encode, base64Decode]
    rw [b64Index_char _ (by omega), b64Index_char _ (by omega)]
    have hne2 : b64Char (b1 % 16 * 4 + b2 / 64) ≠ '=' := b64Char_ne_pad _ (by omega)
    have hne3 : b64Char (b2 % 64) ≠ '=' := b64Char_ne_pad _ (by omega)
    simp only [hne2, if_false]
    rw [b64Index_char _ (by omega)]
    simp only [hne3, if_false]
    rw [b64Index_char _ (by omega), ih hr]
    have e1 : b0 / 4 * 4 + (b0 % 4 * 16 + b1 / 16) / 16 = b0 := by omega
    have e2 : (b0 % 4 * 16 + b1 / 16) % 16 * 16 + (b1 % 16 * 4 + b2 / 64) / 4 = b1 := by
      omega
    have e3 : (b1 % 16 * 4 + b2 / 64) % 4 * 64 + b2 % 64 = b2 := by omega
    simp only [Option.map_some, e1, e2, e3]

theorem base64Encode_ne_nil (b0 b1 : Nat) (t : List Nat) :
    base64Encode (b0 :: b1 :: t) ≠ [] := by
  cases t <;> simp [base64Encode]

theorem encodeVarint_lt (v : Nat) : ∀ b ∈ encodeVarint v, b < 256 := by
  induction v using encodeVarint.induct with
  | case1 v hv ih =>
    rw [encodeVarint_unfold, if_pos hv]
    intro b hb
    rcases List.mem_cons.mp hb with h | h
    · omega
    · exact ih b h
  | case2 v hv =>
    rw [encodeVarint_unfold, if_neg hv]
    intro b hb
    simp at hb
    omega

theorem encodeField_u_lt (f v : Nat) : ∀ b ∈ encodeField f 0 (.u v), b < 256 := by
  intro b hb
  simp only [encodeField] at hb
  rcases List.mem_cons.mp hb with h | h
  · subst h; exact Nat.mod_lt _ (by omega)
  · exact encodeVarint_lt v b h

theorem encodeField_b_lt (f : Nat) (bs : List Nat) (hbs : ∀ b ∈ bs, b < 256) :
    ∀ b ∈ encodeField f 2 (.b bs), b < 256 := by
  intro b hb
  simp only [encodeField] at hb
  rcases List.mem_cons.mp hb with h | h
  · subst h; exact Nat.mod_lt _ (by omega)
  · rcases List.mem_append.mp h with h2 | h2
    · exact encodeVarint_lt _ b h2
    · exact hbs b h2

theorem position_lt (r : Nat) (o : Int) : ∀ b ∈ position r o, b < 256 := by
  intro b hb
  simp only [position] at hb
  split at hb
  · rcases List.mem_append.mp hb with h | h
    · exact encodeField_u_lt 1 r b h
    · rcases List.mem_cons.mp h with h2 | h2
      · omega
      · exact encodeVarint_lt _ b h2
  · rcases List.mem_append.mp hb with h | h
    · exact encodeField_u_lt 1 r b h
    · exact encodeField_u_lt 2 _ b h

theorem utf8EncodeChar_lt (c : Char) : ∀ b ∈ utf8EncodeChar c, b < 256 := by
  have hv := charValid c
  intro b hb
  simp only [utf8EncodeChar] at hb
  split at hb
  · simp at hb; omega
  · split at hb
    · simp at hb; rcases hb with h | h <;> omega
    · split at hb
      · simp at hb; rcases hb with h | h | h <;> omega
      · simp at hb
        have : c.toNat < 1114112 := by omega
        rcases hb with h | h | h | h <;> omega

theorem utf8Encode_lt (l : List Char) : ∀ b ∈ utf8Encode l, b < 256 := by
  induction l with
  | nil => simp [utf8Encode]
  | cons c cs ih =>
    intro b hb
    rw [utf8Encode] at hb
    rcases List.mem_append.mp hb with h | h
    · exact utf8EncodeChar_lt c b h
    · exact ih b h

theorem outerMsg_lt (uuid : List Nat) (title : String) (hu : ∀ b ∈ uuid, b < 256) :
    ∀ b ∈ outerMsg uuid title, b < 256 := by
  have hop1 : ∀ b ∈ op1, b < 256 := by
    intro b hb
    simp only [op1] at hb
    rcases List.mem_append.mp hb with h | h
    · rcases List.mem_append.mp h with h2 | h2
      · rcases List.mem_append.mp h2 with h3 | h3
        · exact encodeField_b_lt _ _ (position_lt 0 0) b h3
        · exact encodeField_u_lt _ _ b h3
      · exact encodeField_b_lt _ _ (position_lt 0 0) b h2
    · exact encodeField_u_lt _ _ b h
  have hop2 : ∀ b ∈ op2 title, b < 256 := by
    intro b hb
    simp only [op2] at hb
    rcases List.mem_append.mp hb with h | h
    · rcases List.mem_append.mp h with h2 | h2
      · rcases List.mem_append.mp h2 with h3 | h3
        · exact encodeField_b_lt _ _ (position_lt 1 0) b h3
        · exact encodeField_u_lt _ _ b h3
      · exact encodeField_b_lt _ _ (position_lt 1 0) b h2
    · exact encodeField_u_lt _ _ b h
  have hop3 : ∀ b ∈ op3, b < 256 := by
    intro b hb
    simp only [op3] at hb
    rcases List.mem_append.mp hb with h | h
    · rcases List.mem_append.mp h with h2 | h2
      · exact encodeField_b_lt _ _ (position_lt 0 (-1)) b h2
      · exact encodeField_u_lt _ _ b h2
    · exact encodeField_b_lt _ _ (position_lt 0 (-1)) b h
  have hmeta : ∀ b ∈ metadata uuid title, b < 256 := by
    apply encodeField_b_lt
    intro b hb
    simp only [uuidEntry] at hb
    rcases List.mem_append.mp hb with h | h
    · rcases List.mem_append.mp h with h2 | h2
      · exact encodeField_b_lt _ _ hu b h2
      · exact encodeField_b_lt _ _ (encodeField_u_lt 1 _) b h2
    · exact encodeField_b_lt _ _ (encodeField_u_lt 1 _) b h
  have hnote : ∀ b ∈ noteMsg uuid title, b < 256 := by
    intro b hb
    simp only [noteMsg] at hb
    rcases List.mem_append.mp hb with h | h
    · rcases List.mem_append.mp h with h2 | h2
      · rcases List.mem_append.mp h2 with h3 | h3
        · rcases List.mem_append.mp h3 with h4 | h4
          · rcases List.mem_append.mp h4 with h5 | h5
            · exact encodeField_b_lt _ _ (utf8Encode_lt title.data) b h5
            · exact encodeField_b_lt _ _ hop1 b h5
          · exact encodeField_b_lt _ _ hop2 b h4
        · exact encodeField_b_lt _ _ hop3 b h3
      · exact encodeField_b_lt _ _ hmeta b h2
    · exact encodeField_b_lt _ _ (encodeField_u_lt 1 _) b h
  intro b hb
  simp only [outerMsg] at hb
  rcases List.mem_append.mp hb with h | h
  · exact encodeField_u_lt _ _ b h
  · refine encodeField_b_lt _ _ ?_ b h
    intro b2 hb2
    simp only [docMsg] at hb2
    rcases List.mem_append.mp hb2 with h2 | h2
    · rcases List.mem_append.mp h2 with h3 | h3
      · exact encodeField_u_lt _ _ b2 h3
      · exact encodeField_u_lt _ _ b2 h3
    · exact encodeField_b_lt _ _ hnote b2 h2

/-! ## Extraction of the first printable run -/

theorem dropWhile_length_le {α : Type} (p : α → Bool) (l : List α) :
    (l.dropWhile p).length ≤ l.length := by
  induction l with
  | nil => simp
  | cons a t ih =>
    by_cases h : p a <;> simp [List.dropWhile, h] <;> omega

theorem trimSpans_length_le (T : List (Nat × List Nat)) :
    (trimSpans T).length ≤ T.length := by
  simp only [trimSpans, List.length_reverse]
  calc ((T.dropWhile fun p => isSpaceRune p.1).reverse.dropWhile
          fun p => isSpaceRune p.1).length
      ≤ (T.dropWhile fun p => isSpaceRune p.1).reverse.length :=
        dropWhile_length_le _ _
    _ ≤ T.length := by
        rw [List.length_reverse]
        exact dropWhile_length_le _ _

/-- Shape of the bytes preceding the title in the decompressed stream: no two
adjacent printable runes, and the final rune (if any) is non-printable.  This
is the invariant that makes the title run the first regexp match. -/
inductive SepList : List (Nat × List Nat) → Prop
  | nil : SepList []
  | consNP {a : Nat × List Nat} {t : List (Nat × List Nat)} :
      printableR a.1 = false → SepList t → SepList (a :: t)
  | consP {a b : Nat × List Nat} {t : List (Nat × List Nat)} :
      printableR a.1 = true → printableR b.1 = false → SepList (b :: t) →
      SepList (a :: b :: t)

theorem groupsAux_walk (T : List (Nat × List Nat)) :
    ∀ (acc X : List (Nat × List Nat)), (∀ x ∈ T, printableR x.1 = true) →
    groupsAux acc (T ++ X) = groupsAux (T.reverse ++ acc) X := by
  induction T with
  | nil => intro acc X _; simp
  | cons s T' ih =>
    intro acc X hT
    have hs : printableR s.1 = true := hT s (by simp)
    rw [List.cons_append, groupsAux, if_pos hs, ih (s :: acc) X
      (fun x hx => hT x (by simp [hx]))]
    simp

theorem fgm_main : ∀ (P : List (Nat × List Nat)), SepList P →
    ∀ (T R : List (Nat × List Nat)) (r0 : Nat × List Nat),
    (∀ x ∈ T, printableR x.1 = true) → printableR r0.1 = false →
    2 ≤ (trimSpans T).length →
    firstGoodMatch ((printableGroups (P ++ (T ++ r0 :: R))).filter
      (fun g => 2 ≤ g.length)) = spanBytes (trimSpans T) := by
  intro P hsep
  induction hsep with
  | nil =>
    intro T R r0 hT hr0 h2
    have hTlen : 2 ≤ T.length := le_trans h2 (trimSpans_length_le T)
    rw [List.nil_append, printableGroups, groupsAux_walk T [] (r0 :: R) hT, groupsAux]
    have hacc : ¬ (T.reverse ++ [] = []) := by
      simp
      intro hT0
      subst hT0
      simp at hTlen
    rw [if_neg (by simp only [Bool.not_eq_true] at hr0 ⊢; simp [hr0]), if_neg hacc]
    simp only [List.append_nil, List.reverse_reverse]
    rw [List.filter_cons_of_pos (by simp; omega), firstGoodMatch]
    simp only [if_pos h2]
  | consNP ha _ ih =>
    intro T R r0 hT hr0 h2
    rw [List.cons_append, printableGroups, groupsAux, if_neg (by simp [ha]),
      if_pos rfl]
    exact ih T R r0 hT hr0 h2
  | consP ha hb hrest ih =>
    intro T R r0 hT hr0 h2
    rw [List.cons_append, printableGroups, groupsAux, if_pos ha, List.cons_append,
      groupsAux, if_neg (by simp [hb]), if_neg (by simp)]
    have hx := ih T R r0 hT hr0 h2
    rw [printableGroups, List.cons_append, groupsAux, if_neg (by simp [hb]),
      if_pos rfl] at hx
    rw [List.filter_cons_of_neg (by simp)]
    exact hx

theorem trimSpans_charSpans (l : List Char) :
    trimSpans (charSpans l) = charSpans (trimChars l) := by
  simp only [trimSpans, trimChars, charSpans, List.dropWhile_map, List.reverse_map]
  rfl

theorem spanBytes_charSpans (l : List Char) :
    spanBytes (charSpans l) = utf8Encode l := by
  induction l with
  | nil => rfl
  | cons c cs ih =>
    simp only [charSpans, List.map_cons, spanBytes, utf8Encode] at ih ⊢
    rw [ih]

/-! ## Shape of the encoded stream around the title bytes -/

theorem encodeVarint_ffffffff :
    encodeVarint 0xFFFFFFFF = [0xff, 0xff, 0xff, 0xff, 0x0f] := by
  simp [encodeVarint_unfold]

/-- The note message after its leading title field: ops 1-3, metadata,
attribute run (the tail of `noteMsg`). -/
def noteRest (uuid : List Nat) (title : String) : List Nat :=
  encodeField 3 2 (.b op1) ++ encodeField 3 2 (.b (op2 title)) ++
  encodeField 3 2 (.b op3) ++ encodeField 4 2 (.b (metadata uuid title)) ++
  encodeField 5 2 (.b (attrRun title))

theorem rune_le_bytes (l : List Char) : l.length ≤ (utf8Encode l).length := by
  induction l with
  | nil => simp [utf8Encode]
  | cons c cs ih =>
    rw [utf8Encode, List.length_append, List.length_cons]
    have : 1 ≤ (utf8EncodeChar c).length := by
      simp only [utf8EncodeChar]
      split
      · simp
      split
      · simp
      split <;> simp
    omega

theorem op1_length : op1.length = 16 := by
  have h0 : encodeVarint 0 = [0] := encodeVarint_small (by omega)
  have h1 : encodeVarint 1 = [1] := encodeVarint_small (by omega)
  have h4 : encodeVarint 4 = [4] := encodeVarint_small (by omega)
  simp [op1, encodeField, position, h0, h1, h4]

theorem op2_length (title : String) (hcl : charLen title ≤ 127) :
    (op2 title).length = 16 := by
  have h0 : encodeVarint 0 = [0] := encodeVarint_small (by omega)
  have h1 : encodeVarint 1 = [1] := encodeVarint_small (by omega)
  have h2 : encodeVarint 2 = [2] := encodeVarint_small (by omega)
  have h4 : encodeVarint 4 = [4] := encodeVarint_small (by omega)
  have hc : encodeVarint (charLen title) = [charLen title] := encodeVarint_small hcl
  simp [op2, encodeField, position, h0, h1, h2, h4, hc]

theorem op3_length : op3.length = 22 := by
  have h0 : encodeVarint 0 = [0] := encodeVarint_small (by omega)
  have h8 : encodeVarint 8 = [8] := encodeVarint_small (by omega)
  simp [op3, encodeField, position, h0, h8, encodeVarint_ffffffff]

theorem metadata_length (uuid : List Nat) (title : String) (hu16 : uuid.length = 16)
    (hcl : charLen title ≤ 127) :
    (metadata uuid title).length = 28 := by
  have h1 : encodeVarint 1 = [1] := encodeVarint_small (by omega)
  have h2 : encodeVarint 2 = [2] := encodeVarint_small (by omega)
  have h16 : encodeVarint 16 = [16] := encodeVarint_small (by omega)
  have h26 : encodeVarint 26 = [26] := encodeVarint_small (by omega)
  have hc : encodeVarint (charLen title) = [charLen title] := encodeVarint_small hcl
  simp [metadata, uuidEntry, clockPayload, replicaPayload, encodeField, hu16,
    h1, h2, h16, h26, hc]

theorem noteRest_length (uuid : List Nat) (title : String) (hu16 : uuid.length = 16)
    (hcl : charLen title ≤ 127) :
    (noteRest uuid title).length = 94 := by
  have h1 : encodeVarint 2 = [2] := encodeVarint_small (by omega)
  have h16 : encodeVarint 16 = [16] := encodeVarint_small (by omega)
  have h22 : encodeVarint 22 = [22] := encodeVarint_small (by omega)
  have h28 : encodeVarint 28 = [28] := encodeVarint_small (by omega)
  have hc : encodeVarint (charLen title) = [charLen title] := encodeVarint_small hcl
  simp [noteRest, encodeField, op1_length, op2_length title hcl, op3_length,
    metadata_length uuid title hu16 hcl, attrRun, h1, h16, h22, h28, hc]

theorem noteMsg_decomp (uuid : List Nat) (title : String)
    (hb : (utf8Encode title.data).length ≤ 127) :
    noteMsg uuid title = [18, (utf8Encode title.data).length] ++
      utf8Encode title.data ++ noteRest uuid title := by
  have hev : encodeVarint (utf8Encode title.data).length =
      [(utf8Encode title.data).length] := encodeVarint_small hb
  rw [noteMsg, noteRest]
  rw [show encodeField 2 2 (.b (utf8Encode title.data)) =
    18 :: ([(utf8Encode title.data).length] ++ utf8Encode title.data) from by
      rw [encodeField, hev]]
  simp [List.append_assoc]

theorem noteMsg_length (uuid : List Nat) (title : String) (hu16 : uuid.length = 16)
    (hcl : charLen title ≤ 127) (hb : (utf8Encode title.data).length ≤ 127) :
    (noteMsg uuid title).length = 96 + (utf8Encode title.data).length := by
  rw [noteMsg_decomp uuid title hb]
  simp [noteRest_length uuid title hu16 hcl]
  omega

theorem outerMsg_decomp (uuid : List Nat) (title : String) (hu16 : uuid.length = 16)
    (hb : (utf8Encode title.data).length < 32) :
    outerMsg uuid title =
      [8, 0, 18] ++ encodeVarint (102 + (utf8Encode title.data).length) ++
      [8, 0, 16, 0, 26, 96 + (utf8Encode title.data).length, 18,
        (utf8Encode title.data).length] ++
      utf8Encode title.data ++ noteRest uuid title := by
  have hcl : charLen title ≤ 127 := by
    have := rune_le_bytes title.data
    simp only [charLen]
    omega
  have hb127 : (utf8Encode title.data).length ≤ 127 := by omega
  have hnl : (noteMsg uuid title).length = 96 + (utf8Encode title.data).length :=
    noteMsg_length uuid title hu16 hcl hb127
  have hevn : encodeVarint (noteMsg uuid title).length =
      [96 + (utf8Encode title.data).length] := by
    rw [hnl]
    exact encodeVarint_small (by omega)
  have hev96 : encodeVarint (96 + (utf8Encode title.data).length) =
      [96 + (utf8Encode title.data).length] := encodeVarint_small (by omega)
  have hdl : (docMsg uuid title).length = 102 + (utf8Encode title.data).length := by
    have h0 : encodeVarint 0 = [0] := encodeVarint_small (by omega)
    rw [docMsg]
    simp only [encodeField, h0, hevn, hev96, List.length_append, List.length_cons,
      List.length_singleton, List.length_nil, hnl]
    omega
  have h0 : encodeVarint 0 = [0] := encodeVarint_small (by omega)
  rw [outerMsg]
  simp only [encodeField, h0, hdl]
  rw [docMsg]
  simp only [encodeField, h0, hevn]
  rw [noteMsg_decomp uuid title hb127]
  simp [List.append_assoc]

/-! ## The round-trip theorem and its failure on short titles -/

theorem gzip_roundtrip (bs : List Nat) : gzipDecompress (gzipCompress bs) = some bs := rfl

theorem data_mk (l : List Char) : (String.mk l).data = l := rfl

theorem stringOfBytes_utf8 (l : List Char) : stringOfBytes (utf8Encode l) = String.mk l := by
  rw [stringOfBytes, rs_string_closed]
  congr 1
  rw [charSpans, List.map_map]
  have hid : ((fun p : Nat × List Nat => Char.ofNat p.1) ∘
      fun c : Char => (c.toNat, utf8EncodeChar c)) = id := by
    funext c
    exact Char.ofNat_toNat c
  rw [hid, List.map_id]

theorem printableR_ctrl {r : Nat} (h : r ≤ 31) : printableR r = false := by
  have hd : decide (r ≤ 31) = true := decide_eq_true h
  simp [printableR, hd]

theorem SepList.consAny {a b : Nat × List Nat} {t : List (Nat × List Nat)}
    (hb : printableR b.1 = false) (h : SepList (b :: t)) : SepList (a :: b :: t) := by
  by_cases ha : printableR a.1 = true
  · exact .consP ha hb h
  · exact .consNP (by simpa using ha) h

/-- C1 counterexample support: the all-zero document uuid. -/
def uuidZero : List Nat := List.replicate 16 0

/-- C1 (amended): for printable titles — no C0/C1 control characters — whose
trimmed form still has at least 2 characters and whose UTF-8 encoding is
shorter than 32 bytes, decoding the encoded title yields exactly the
whitespace-trimmed title, for any 16-byte document uuid.  The byte-length
bound is forced by a second failure regime of the codec (see the
counterexample): the title bytes sit directly after their varint length
prefix, so for a title of 33..126 bytes that prefix byte (0x21..0x7e) is
itself printable, glues onto the title run, and extraction returns the
prefix byte followed by the title; below 32 bytes the prefix is a control
byte and cannot pollute the run (at exactly 32 bytes it is the space 0x20,
a case this theorem does not cover). -/
theorem c1_roundtrip (uuid : List Nat) (s : String)
    (hu : ∀ b ∈ uuid, b < 256) (hu16 : uuid.length = 16)
    (hp : ∀ c ∈ s.data, printableR c.toNat = true)
    (ht : 2 ≤ (trimChars s.data).length)
    (hb : (utf8Encode s.data).length < 32) :
    extractTitle (encodeTitle uuid s) = goTrimSpace s := by
  have hgz : ∀ b ∈ gzipCompress (outerMsg uuid s), b < 256 := by
    intro b hbm
    rcases List.mem_cons.mp hbm with h | h
    · omega
    · rcases List.mem_cons.mp h with h2 | h2
      · omega
      · exact outerMsg_lt uuid s hu b h2
  have hne : String.mk (base64Encode (gzipCompress (outerMsg uuid s))) ≠ "" := by
    intro hcontra
    have hdata := congrArg String.data hcontra
    rw [data_mk] at hdata
    exact base64Encode_ne_nil _ _ _ hdata
  rw [encodeTitle, extractTitle, if_neg hne, data_mk, base64_roundtrip _ hgz]
  show stringOfBytes (firstGoodMatch ((printableGroups
    (runeSpans (outerMsg uuid s))).filter (fun g => 2 ≤ g.length))) = goTrimSpace s
  -- the stream decomposition
  obtain ⟨X, hX⟩ : ∃ X, noteRest uuid s = 26 :: X := by
    rw [noteRest]
    rw [show encodeField 3 2 (.b op1) = 26 :: (encodeVarint op1.length ++ op1) from rfl]
    refine ⟨encodeVarint op1.length ++ op1 ++ encodeField 3 2 (.b (op2 s)) ++
      encodeField 3 2 (.b op3) ++ encodeField 4 2 (.b (metadata uuid s)) ++
      encodeField 5 2 (.b (attrRun s)), ?_⟩
    simp [List.cons_append, List.append_assoc]
  have hTnp : ∀ x ∈ charSpans s.data, printableR x.1 = true := by
    intro x hx
    rw [charSpans, List.mem_map] at hx
    obtain ⟨c, hc, rfl⟩ := hx
    exact hp c hc
  have h26 : printableR (26, [26]).1 = false := printableR_ctrl (by omega)
  have h2 : 2 ≤ (trimSpans (charSpans s.data)).length := by
    rw [trimSpans_charSpans, charSpans, List.length_map]
    exact ht
  have hfin : spanBytes (trimSpans (charSpans s.data)) = utf8Encode (trimChars s.data) := by
    rw [trimSpans_charSpans, spanBytes_charSpans]
  have hL3np : printableR ((utf8Encode s.data).length) = false :=
    printableR_ctrl (by omega)
  rw [outerMsg_decomp uuid s hu16 hb, hX]
  by_cases hL1 : 102 + (utf8Encode s.data).length ≤ 127
  · rw [encodeVarint_small hL1]
    rw [show ([8, 0, 18] ++ [102 + (utf8Encode s.data).length] ++
        [8, 0, 16, 0, 26, 96 + (utf8Encode s.data).length, 18,
          (utf8Encode s.data).length] ++ utf8Encode s.data ++ (26 :: X)) =
        (8 :: 0 :: 18 :: (102 + (utf8Encode s.data).length) :: 8 :: 0 :: 16 :: 0 ::
          26 :: (96 + (utf8Encode s.data).length) :: 18 ::
          (utf8Encode s.data).length :: (utf8Encode s.data ++ (26 :: X))) from by
      simp [List.cons_append, List.append_assoc]]
    rw [rs_ascii _ (by omega), rs_ascii _ (by omega), rs_ascii _ (by omega),
      rs_ascii _ (by omega), rs_ascii _ (by omega), rs_ascii _ (by omega),
      rs_ascii _ (by omega), rs_ascii _ (by omega), rs_ascii _ (by omega),
      rs_ascii _ (by omega), rs_ascii _ (by omega), rs_ascii _ (by omega),
      rs_string, rs_ascii _ (by omega)]
    rw [show ((8, [8]) :: (0, [0]) :: (18, [18]) ::
        (102 + (utf8Encode s.data).length, [102 + (utf8Encode s.data).length]) ::
        (8, [8]) :: (0, [0]) :: (16, [16]) :: (0, [0]) :: (26, [26]) ::
        (96 + (utf8Encode s.data).length, [96 + (utf8Encode s.data).length]) ::
        (18, [18]) :: ((utf8Encode s.data).length, [(utf8Encode s.data).length]) ::
        (charSpans s.data ++ (26, [26]) :: runeSpans X)) =
        ([(8, [8]), (0, [0]), (18, [18]),
          (102 + (utf8Encode s.data).length, [102 + (utf8Encode s.data).length]),
          (8, [8]), (0, [0]), (16, [16]), (0, [0]), (26, [26]),
          (96 + (utf8Encode s.data).length, [96 + (utf8Encode s.data).length]),
          (18, [18]), ((utf8Encode s.data).length, [(utf8Encode s.data).length])] ++
          (charSpans s.data ++ (26, [26]) :: runeSpans X)) from by simp]
    have hsep : SepList [((8 : Nat), [(8 : Nat)]), (0, [0]), (18, [18]),
        (102 + (utf8Encode s.data).length, [102 + (utf8Encode s.data).length]),
        (8, [8]), (0, [0]), (16, [16]), (0, [0]), (26, [26]),
        (96 + (utf8Encode s.data).length, [96 + (utf8Encode s.data).length]),
        (18, [18]), ((utf8Encode s.data).length, [(utf8Encode s.data).length])] := by
      refine .consNP (printableR_ctrl (by omega)) ?_
      refine .consNP (printableR_ctrl (by omega)) ?_
      refine .consNP (printableR_ctrl (by omega)) ?_
      refine .consAny (printableR_ctrl (by omega)) ?_
      refine .consNP (printableR_ctrl (by omega)) ?_
      refine .consNP (printableR_ctrl (by omega)) ?_
      refine .consNP (printableR_ctrl (by omega)) ?_
      refine .consNP (printableR_ctrl (by omega)) ?_
      refine .consNP (printableR_ctrl (by omega)) ?_
      refine .consAny (printableR_ctrl (by omega)) ?_
      refine .consNP (printableR_ctrl (by omega)) ?_
      exact .consNP hL3np .nil
    rw [fgm_main _ hsep (charSpans s.data) (runeSpans X) (26, [26]) hTnp h26 h2, hfin,
      stringOfBytes_utf8]
    rfl
  · have hL1b : 127 < 102 + (utf8Encode s.data).length := by omega
    rw [encodeVarint_unfold, if_pos hL1b,
      encodeVarint_small (v := (102 + (utf8Encode s.data).length) / 128) (by omega)]
    rw [show ([8, 0, 18] ++ (((102 + (utf8Encode s.data).length) % 128 + 128) ::
        [(102 + (utf8Encode s.data).length) / 128]) ++
        [8, 0, 16, 0, 26, 96 + (utf8Encode s.data).length, 18,
          (utf8Encode s.data).length] ++ utf8Encode s.data ++ (26 :: X)) =
        (8 :: 0 :: 18 :: ((102 + (utf8Encode s.data).length) % 128 + 128) ::
          ((102 + (utf8Encode s.data).length) / 128) :: 8 :: 0 :: 16 :: 0 ::
          26 :: (96 + (utf8Encode s.data).length) :: 18 ::
          (utf8Encode s.data).length :: (utf8Encode s.data ++ (26 :: X))) from by
      simp [List.cons_append, List.append_assoc]]
    rw [rs_ascii _ (by omega), rs_ascii _ (by omega), rs_ascii _ (by omega),
      rs_badstart _ (by omega) (by omega), rs_ascii _ (by omega),
      rs_ascii _ (by omega), rs_ascii _ (by omega), rs_ascii _ (by omega),
      rs_ascii _ (by omega), rs_ascii _ (by omega), rs_ascii _ (by omega),
      rs_ascii _ (by omega), rs_ascii _ (by omega), rs_string, rs_ascii _ (by omega)]
    rw [show ((8, [8]) :: (0, [0]) :: (18, [18]) ::
        ((65533 : Nat), [(102 + (utf8Encode s.data).length) % 128 + 128]) ::
        ((102 + (utf8Encode s.data).length) / 128,
          [(102 + (utf8Encode s.data).length) / 128]) ::
        (8, [8]) :: (0, [0]) :: (16, [16]) :: (0, [0]) :: (26, [26]) ::
        (96 + (utf8Encode s.data).length, [96 + (utf8Encode s.data).length]) ::
        (18, [18]) :: ((utf8Encode s.data).length, [(utf8Encode s.data).length]) ::
        (charSpans s.data ++ (26, [26]) :: runeSpans X)) =
        ([(8, [8]), (0, [0]), (18, [18]),
          ((65533 : Nat), [(102 + (utf8Encode s.data).length) % 128 + 128]),
          ((102 + (utf8Encode s.data).length) / 128,
            [(102 + (utf8Encode s.data).length) / 128]),
          (8, [8]), (0, [0]), (16, [16]), (0, [0]), (26, [26]),
          (96 + (utf8Encode s.data).length, [96 + (utf8Encode s.data).length]),
          (18, [18]), ((utf8Encode s.data).length, [(utf8Encode s.data).length])] ++
          (charSpans s.data ++ (26, [26]) :: runeSpans X)) from by simp]
    have hsep : SepList [((8 : Nat), [(8 : Nat)]), (0, [0]), (18, [18]),
        ((65533 : Nat), [(102 + (utf8Encode s.data).length) % 128 + 128]),
        ((102 + (utf8Encode s.data).length) / 128,
          [(102 + (utf8Encode s.data).length) / 128]),
        (8, [8]), (0, [0]), (16, [16]), (0, [0]), (26, [26]),
        (96 + (utf8Encode s.data).length, [96 + (utf8Encode s.data).length]),
        (18, [18]), ((utf8Encode s.data).length, [(utf8Encode s.data).length])] := by
      refine .consNP (printableR_ctrl (by omega)) ?_
      refine .consNP (printableR_ctrl (by omega)) ?_
      refine .consNP (printableR_ctrl (by omega)) ?_
      refine .consAny (printableR_ctrl (by omega)) ?_
      refine .consNP (printableR_ctrl (by omega)) ?_
      refine .consNP (printableR_ctrl (by omega)) ?_
      refine .consNP (printableR_ctrl (by omega)) ?_
      refine .consNP (printableR_ctrl (by omega)) ?_
      refine .consNP (printableR_ctrl (by omega)) ?_
      refine .consNP (printableR_ctrl (by omega)) ?_
      refine .consAny (printableR_ctrl (by omega)) ?_
      refine .consNP (printableR_ctrl (by omega)) ?_
      exact .consNP hL3np .nil
    rw [fgm_main _ hsep (charSpans s.data) (runeSpans X) (26, [26]) hTnp h26 h2, hfin,
      stringOfBytes_utf8]
    rfl

/-- C1 witness: the amended round trip at the concrete title "Buy milk" with
the all-zero uuid. -/
theorem c1_roundtrip_witness :
    extractTitle (encodeTitle uuidZero "Buy milk") = goTrimSpace "Buy milk" :=
  c1_roundtrip uuidZero "Buy milk" (by decide) (by decide) (by decide) (by decide)
    (by decide)

theorem outer_A : outerMsg uuidZero "A" =
    [8, 0, 18, 103, 8, 0, 16, 0, 26, 97, 18, 1, 65, 26, 16, 10, 4, 8, 0, 16, 0, 16, 0, 26, 4,
     8, 0, 16, 0, 40, 1, 26, 16, 10, 4, 8, 1, 16, 0, 16, 1, 26, 4, 8, 1, 16, 0, 40, 2, 26, 22,
     10, 8, 8, 0, 16, 255, 255, 255, 255, 15, 16, 0, 26, 8, 8, 0, 16, 255, 255, 255, 255, 15,
     34, 28, 10, 26, 10, 16, 0, 0, 0, 0, 0, 0, 0, 0, 0, 0, 0, 0, 0, 0, 0, 0, 18, 2, 8, 1, 18,
     2, 8, 1, 42, 2, 8, 1] := by
  simp [outerMsg, docMsg, noteMsg, op1, op2, op3, metadata, uuidEntry, clockPayload,
    replicaPayload, attrRun, position, encodeField, charLen, utf8Encode, utf8EncodeChar,
    encodeVarint_unfold, uuidZero]

/-- The title made of 33 copies of "A": the smallest printable title whose
UTF-8 byte length makes the varint length prefix byte itself printable
(33 = 0x21, the character "!"). -/
def titleA33 : String := "AAAAAAAAAAAAAAAAAAAAAAAAAAAAAAAAA"

theorem outer_A33 : outerMsg uuidZero titleA33 =
    [8, 0, 18, 136, 1, 8, 0, 16, 0, 26, 129, 1, 18, 33, 65, 65, 65, 65, 65, 65, 65, 65,
     65, 65, 65, 65, 65, 65, 65, 65, 65, 65, 65, 65, 65, 65, 65, 65, 65, 65, 65, 65, 65,
     65, 65, 65, 65, 26, 16, 10, 4, 8, 0, 16, 0, 16, 0, 26, 4, 8, 0, 16, 0, 40, 1, 26,
     16, 10, 4, 8, 1, 16, 0, 16, 33, 26, 4, 8, 1, 16, 0, 40, 2, 26, 22, 10, 8, 8, 0, 16,
     255, 255, 255, 255, 15, 16, 0, 26, 8, 8, 0, 16, 255, 255, 255, 255, 15, 34, 28, 10,
     26, 10, 16, 0, 0, 0, 0, 0, 0, 0, 0, 0, 0, 0, 0, 0, 0, 0, 0, 18, 2, 8, 33, 18, 2, 8,
     1, 42, 2, 8, 33] := by
  simp [outerMsg, docMsg, noteMsg, op1, op2, op3, metadata, uuidEntry, clockPayload,
    replicaPayload, attrRun, position, encodeField, charLen, utf8Encode, utf8EncodeChar,
    encodeVarint_unfold, uuidZero, titleA33]

/-- C1 counterexample: the round trip fails in TWO regimes, each refuting the
claim's unrestricted quantifier.  (i) For the printable one-character title
"A" the title run is too short for the extraction regex, and the first
printable run of length ≥ 2 is the four invalid 0xff bytes of the sentinel
operation, which decode to four U+FFFD replacement characters.  (ii) For the
33-byte title `titleA33` the varint length prefix directly before the title
bytes is 33 = "!", itself printable, so it glues onto the title run and
extraction returns "!" followed by the title — the failure regime that forces
the byte-length bound of the amended theorem. -/
theorem c1_fails_short_title :
    extractTitle (encodeTitle uuidZero "A") ≠ goTrimSpace "A" ∧
    extractTitle (encodeTitle uuidZero titleA33) = String.mk ('!' :: titleA33.data) ∧
    String.mk ('!' :: titleA33.data) ≠ goTrimSpace titleA33 := by
  refine ⟨?_, ?_, by decide⟩
  · rw [encodeTitle, outer_A]
    decide
  · rw [encodeTitle, outer_A33]
    decide

/-! ## Timestamps (go/utils/utils.go: TsToStr, StrToTs)

Go's `time` package converts between epoch milliseconds and UTC calendar
dates; we embed the standard civil-calendar arithmetic (floor division), which
agrees with Go for every instant. -/

def civilFromDays (z0 : Int) : Int × Int × Int :=
  let z := z0 + 719468
  let era := z.fdiv 146097
  let doe := z - era * 146097
  let yoe := (doe - doe / 1460 + doe / 36524 - doe / 146096) / 365
  let y := yoe + era * 400
  let doy := doe - (365 * yoe + yoe / 4 - yoe / 100)
  let mp := (5 * doy + 2) / 153
  let d := doy - (153 * mp + 2) / 5 + 1
  let m := mp + (if mp < 10 then 3 else -9)
  (y + (if m ≤ 2 then 1 else 0), m, d)

def daysFromCivil (y m d : Int) : Int :=
  let y2 := y - (if m ≤ 2 then 1 else 0)
  let era := y2.fdiv 400
  let yoe := y2 - era * 400
  let mp := m + (if 2 < m then -3 else 9)
  let doy := (153 * mp + 2) / 5 + d - 1
  let doe := yoe * 365 + yoe / 4 - yoe / 100 + doy
  era * 146097 + doe - 719468

def pad2 (n : Int) : String := if n < 10 then "0" ++ toString n else toString n

def pad4 (n : Int) : String :=
  if n < 10 then "000" ++ toString n
  else if n < 100 then "00" ++ toString n
  else if n < 1000 then "0" ++ toString n
  else toString n

/-- Go `TsToStr`: millisecond timestamp to "YYYY-MM-DD" (UTC); "" for 0. -/
def tsToStr (tsMs : Int) : String :=
  if tsMs = 0 then ""
  else
    let cd := civilFromDays (tsMs.fdiv 86400000)
    pad4 cd.1 ++ "-" ++ pad2 cd.2.1 ++ "-" ++ pad2 cd.2.2

def isLeap (y : Int) : Bool := (y % 4 = 0 && !(y % 100 = 0)) || y % 400 = 0

def daysInMonth (y m : Int) : Int :=
  if m = 2 then (if isLeap y then 29 else 28)
  else if m = 4 ∨ m = 6 ∨ m = 9 ∨ m = 11 then 30
  else 31

def digitVal (c : Char) : Int := (c.toNat : Int) - 48

/-- Go `time.Parse("2006-01-02", s)`: exactly four year digits, two month
digits, two day digits, dashes between, with month and day range checks. -/
def parseDate (s : String) : Option (Int × Int × Int) :=
  match s.data with
  | [y1, y2, y3, y4, s1, m1, m2, s2, d1, d2] =>
    if y1.isDigit && y2.isDigit && y3.isDigit && y4.isDigit && s1 = '-' &&
        m1.isDigit && m2.isDigit && s2 = '-' && d1.isDigit && d2.isDigit then
      let y := digitVal y1 * 1000 + digitVal y2 * 100 + digitVal y3 * 10 + digitVal y4
      let m := digitVal m1 * 10 + digitVal m2
      let d := digitVal d1 * 10 + digitVal d2
      if 1 ≤ m && m ≤ 12 && 1 ≤ d && d ≤ daysInMonth y m then some (y, m, d)
      else none
    else none
  | _ => none

/-- Go `StrToTs`: "YYYY-MM-DD" to UTC midnight epoch milliseconds, or an error. -/
def strToTs (dateStr : String) : Option Int :=
  (parseDate dateStr).map (fun p => daysFromCivil p.1 p.2.1 p.2.2 * 86400000)

/-! ## The local record cache (go/cache/cache.go, quoted in SKILL.md)

Go maps become association lists with map semantics: `lookupA` is map read,
`upsertA` replaces the first binding or appends, `removeA` is `delete`.
Cache-state equality claims are stated extensionally (per-key lookup), which
is exactly Go map equality. -/

def lookupA {α : Type} : List (String × α) → String → Option α
  | [], _ => none
  | (k, v) :: t, key => if k = key then some v else lookupA t key

def upsertA {α : Type} : List (String × α) → String → α → List (String × α)
  | [], k, v => [(k, v)]
  | (k0, v0) :: t, k, v => if k0 = k then (k, v) :: t else (k0, v0) :: upsertA t k v

def removeA {α : Type} (l : List (String × α)) (k : String) : List (String × α) :=
  l.filter (fun p => p.1 ≠ k)

theorem lookupA_upsert {α : Type} (l : List (String × α)) (k k' : String) (v : α) :
    lookupA (upsertA l k v) k' = if k' = k then some v else lookupA l k' := by
  induction l with
  | nil =>
    rw [upsertA, lookupA]
    by_cases h : k = k'
    · subst h
      simp [lookupA]
    · have h2 : ¬ k' = k := fun he => h he.symm
      simp [h, h2, lookupA]
  | cons p t ih =>
    obtain ⟨k0, v0⟩ := p
    rw [upsertA]
    by_cases h0 : k0 = k
    · subst h0
      rw [if_pos rfl, lookupA, lookupA]
      by_cases h : k0 = k'
      · subst h
        simp
      · have h2 : ¬ k' = k0 := fun he => h he.symm
        simp [h, h2]
    · rw [if_neg h0, lookupA, lookupA]
      by_cases h : k0 = k'
      · have h2 : ¬ k' = k := by
          intro he
          exact h0 (h.trans he)
        simp [h, h2]
      · simp [h, ih]

theorem lookupA_remove {α : Type} (l : List (String × α)) (k k' : String) :
    lookupA (removeA l k) k' = if k' = k then none else lookupA l k' := by
  induction l with
  | nil => simp [removeA, lookupA]
  | cons p t ih =>
    obtain ⟨k0, v0⟩ := p
    by_cases h0 : k0 = k
    · subst h0
      rw [removeA, List.filter_cons_of_neg (by simp)]
      rw [removeA] at ih
      simp only [ne_eq, decide_not] at ih ⊢
      rw [ih]
      by_cases h : k' = k0
      · simp [h]
      · have h2 : ¬ k0 = k' := fun he => h he.symm
        simp [h, lookupA, h2]
    · rw [removeA, List.filter_cons_of_pos (by simp [h0])]
      rw [removeA] at ih
      simp only [ne_eq, decide_not] at ih ⊢
      rw [lookupA, lookupA]
      by_cases h : k0 = k'
      · have h2 : ¬ k' = k := by
          intro he
          exact h0 (h.trans he)
        simp [h, h2]
      · simp [h, ih]

/-- `cache.ReminderData`. -/
structure ReminderData where
  title : String := ""
  completed : Bool := false
  completionDate : Option String := none
  due : Option String := none
  priority : Int := 0
  notes : Option String := none
  listRef : Option String := none
  parentRef : Option String := none
  modifiedTS : Option Int := none
  changeTag : Option String := none
deriving DecidableEq, Repr

/-- `cache.Cache` (the `UpdatedAt` bookkeeping stamp is not modelled). -/
structure Cache where
  reminders : List (String × ReminderData) := []
  lists : List (String × String) := []
  syncToken : Option String := none
  ownerID : Option String := none
deriving DecidableEq, Repr

/-- Go `cache.NewCache()`: the empty cache. -/
def NewCache : Cache := {}

/-! ## CloudKit records as the sync engine reads them (go/sync/sync.go) -/

/-- The dynamic JSON field values `processRecords` inspects: a CloudKit field
is `{"value": v}` where `v` is a string, a number, or a reference object; any
other shape makes every typed accessor return its zero value (`other`). -/
inductive FieldVal where
  | str (s : String)
  | num (n : Int)
  | ref (recordName : String)
  | boolV (b : Bool)
  | other
deriving DecidableEq, Repr

/-- One record of a changes page, holding exactly the projections the Go code
reads from the dynamic JSON (missing entries are the Go type-assertion
defaults). -/
structure CKRecord where
  recordName : String := ""
  recordType : String := ""
  deleted : Bool := false
  fields : List (String × FieldVal) := []
  recordChangeTag : String := ""
  modifiedTimestamp : Option Int := none
deriving DecidableEq, Repr

def getFieldString (fields : List (String × FieldVal)) (key : String) : String :=
  match lookupA fields key with
  | some (.str s) => s
  | _ => ""

def getFieldInt (fields : List (String × FieldVal)) (key : String) : Int :=
  match lookupA fields key with
  | some (.num n) => n
  | _ => 0

def getFieldInt64 (fields : List (String × FieldVal)) (key : String) : Int :=
  match lookupA fields key with
  | some (.num n) => n
  | _ => 0

def getFieldRefName (fields : List (String × FieldVal)) (key : String) : String :=
  match lookupA fields key with
  | some (.ref n) => n
  | _ => ""

/-- The server `deleted` flag OR-ed with the soft-delete field. -/
def deletedOf (r : CKRecord) : Bool :=
  r.deleted || !(getFieldInt r.fields "Deleted" = 0)

/-- A live list's display name: the `Name` field, falling back to the codec. -/
def listTitleOf (r : CKRecord) : String :=
  let t := getFieldString r.fields "Name"
  if t = "" then extractTitle (getFieldString r.fields "TitleDocument") else t

/-- The `cache.ReminderData` built for a live reminder record. -/
def reminderDataOf (r : CKRecord) : ReminderData :=
  let title0 := extractTitle (getFieldString r.fields "TitleDocument")
  let title := if title0 = "" then "(untitled)" else title0
  let due := getFieldInt64 r.fields "DueDate"
  let cd := getFieldInt64 r.fields "CompletionDate"
  let listRef := getFieldRefName r.fields "List"
  let parentRef := getFieldRefName r.fields "ParentReminder"
  let notes := extractTitle (getFieldString r.fields "NotesDocument")
  { title := title
    completed := !(getFieldInt r.fields "Completed" = 0)
    completionDate := if cd = 0 then none else some (tsToStr cd)
    due := if due = 0 then none else some (tsToStr due)
    priority := getFieldInt r.fields "Priority"
    notes := if notes = "" then none else some notes
    listRef := if listRef = "" then none else some listRef
    parentRef := if parentRef = "" then none else some parentRef
    modifiedTS := r.modifiedTimestamp
    changeTag := if r.recordChangeTag = "" then none else some r.recordChangeTag }

/-- One step of Go `processRecords`: fold a single record into the cache. -/
def processRecord (c : Cache) (r : CKRecord) : Cache :=
  if r.recordType = "ReminderList" ∨ r.recordType = "List" then
    if deletedOf r then { c with lists := removeA c.lists r.recordName }
    else if listTitleOf r = "" then c
    else { c with lists := upsertA c.lists r.recordName (listTitleOf r) }
  else if r.recordType = "Reminder" then
    if deletedOf r then { c with reminders := removeA c.reminders r.recordName }
    else { c with reminders := upsertA c.reminders r.recordName (reminderDataOf r) }
  else c

/-- Go `processRecords`: fold a page of records into the cache, in order. -/
def processRecords (c : Cache) (rs : List CKRecord) : Cache :=
  rs.foldl processRecord c

/-! ## Idempotence of record folding (C6) -/

/-- The effect a record has on one cache map: leave it, delete its key, or
set its key to a value computed from the record alone. -/
inductive Eff (V : Type) where
  | skip
  | del
  | set (v : V)

def applyEff {V : Type} : Eff V → Option V → Option V
  | .skip, cur => cur
  | .del, _ => none
  | .set v, _ => some v

/-- The effect of a record on the reminders map. -/
def remEff (r : CKRecord) : Eff ReminderData :=
  if r.recordType = "ReminderList" ∨ r.recordType = "List" then .skip
  else if r.recordType = "Reminder" then
    if deletedOf r then .del else .set (reminderDataOf r)
  else .skip

/-- The effect of a record on the lists map. -/
def listEff (r : CKRecord) : Eff String :=
  if r.recordType = "ReminderList" ∨ r.recordType = "List" then
    if deletedOf r then .del
    else if listTitleOf r = "" then .skip
    else .set (listTitleOf r)
  else .skip

theorem processRecord_token (c : Cache) (r : CKRecord) :
    (processRecord c r).syncToken = c.syncToken ∧
    (processRecord c r).ownerID = c.ownerID := by
  rw [processRecord]
  by_cases h1 : r.recordType = "ReminderList" ∨ r.recordType = "List"
  · rw [if_pos h1]
    by_cases h2 : deletedOf r = true
    · rw [if_pos h2]; exact ⟨rfl, rfl⟩
    · rw [if_neg h2]
      by_cases h3 : listTitleOf r = ""
      · rw [if_pos h3]; exact ⟨rfl, rfl⟩
      · rw [if_neg h3]; exact ⟨rfl, rfl⟩
  · rw [if_neg h1]
    by_cases h2 : r.recordType = "Reminder"
    · rw [if_pos h2]
      by_cases h3 : deletedOf r = true
      · rw [if_pos h3]; exact ⟨rfl, rfl⟩
      · rw [if_neg h3]; exact ⟨rfl, rfl⟩
    · rw [if_neg h2]; exact ⟨rfl, rfl⟩

theorem lookup_processRecord_rem (c : Cache) (r : CKRecord) (k : String) :
    lookupA (processRecord c r).reminders k =
      if k = r.recordName then applyEff (remEff r) (lookupA c.reminders k)
      else lookupA c.reminders k := by
  rw [processRecord, remEff]
  by_cases h1 : r.recordType = "ReminderList" ∨ r.recordType = "List"
  · rw [if_pos h1, if_pos h1]
    by_cases h2 : deletedOf r = true
    · rw [if_pos h2]
      simp [applyEff]
    · rw [if_neg h2]
      by_cases h3 : listTitleOf r = ""
      · rw [if_pos h3]
        simp [applyEff]
      · rw [if_neg h3]
        simp [applyEff]
  · rw [if_neg h1, if_neg h1]
    by_cases h2 : r.recordType = "Reminder"
    · rw [if_pos h2, if_pos h2]
      by_cases h3 : deletedOf r = true
      · rw [if_pos h3, if_pos h3]
        show lookupA (removeA c.reminders r.recordName) k = _
        rw [lookupA_remove]
        by_cases h : k = r.recordName <;> simp [h, applyEff]
      · rw [if_neg h3, if_neg h3]
        show lookupA (upsertA c.reminders r.recordName (reminderDataOf r)) k = _
        rw [lookupA_upsert]
        by_cases h : k = r.recordName <;> simp [h, applyEff]
    · rw [if_neg h2, if_neg h2]
      simp [applyEff]

theorem lookup_processRecord_lists (c : Cache) (r : CKRecord) (k : String) :
    lookupA (processRecord c r).lists k =
      if k = r.recordName then applyEff (listEff r) (lookupA c.lists k)
      else lookupA c.lists k := by
  rw [processRecord, listEff]
  by_cases h1 : r.recordType = "ReminderList" ∨ r.recordType = "List"
  · rw [if_pos h1, if_pos h1]
    by_cases h2 : deletedOf r = true
    · rw [if_pos h2, if_pos h2]
      show lookupA (removeA c.lists r.recordName) k = _
      rw [lookupA_remove]
      by_cases h : k = r.recordName <;> simp [h, applyEff]
    · rw [if_neg h2, if_neg h2]
      by_cases h3 : listTitleOf r = ""
      · rw [if_pos h3, if_pos h3]
        simp [applyEff]
      · rw [if_neg h3, if_neg h3]
        show lookupA (upsertA c.lists r.recordName (listTitleOf r)) k = _
        rw [lookupA_upsert]
        by_cases h : k = r.recordName <;> simp [h, applyEff]
  · rw [if_neg h1, if_neg h1]
    by_cases h2 : r.recordType = "Reminder"
    · rw [if_pos h2]
      by_cases h3 : deletedOf r = true
      · rw [if_pos h3]
        simp [applyEff]
      · rw [if_neg h3]
        simp [applyEff]
    · rw [if_neg h2]
      simp [applyEff]

/-- The last effect a page applies at a key (later records win). -/
def lastEffF {V : Type} (eff : CKRecord → Eff V) : List CKRecord → String → Option (Option V)
  | [], _ => none
  | r :: rs, k =>
    match lastEffF eff rs k with
    | some o => some o
    | none =>
      if r.recordName = k then
        match eff r with
        | .skip => none
        | .del => some none
        | .set v => some (some v)
      else none

theorem lookup_processRecords_rem (rs : List CKRecord) :
    ∀ (c : Cache) (k : String),
    lookupA (processRecords c rs).reminders k =
      (lastEffF remEff rs k).getD (lookupA c.reminders k) := by
  induction rs with
  | nil => intro c k; simp [processRecords, lastEffF]
  | cons r rs ih =>
    intro c k
    rw [processRecords, List.foldl_cons]
    have := ih (processRecord c r) k
    rw [processRecords] at this
    rw [this, lookup_processRecord_rem, lastEffF]
    match hl : lastEffF remEff rs k with
    | some o => simp
    | none =>
      simp only [Option.getD_none]
      by_cases h : r.recordName = k
      · have h2 : k = r.recordName := h.symm
        rw [if_pos h, if_pos h2]
        match he : remEff r with
        | .skip => simp [applyEff]
        | .del => simp [applyEff]
        | .set v => simp [applyEff]
      · have h2 : ¬ k = r.recordName := fun he => h he.symm
        rw [if_neg h, if_neg h2]
        simp

theorem lookup_processRecords_lists (rs : List CKRecord) :
    ∀ (c : Cache) (k : String),
    lookupA (processRecords c rs).lists k =
      (lastEffF listEff rs k).getD (lookupA c.lists k) := by
  induction rs with
  | nil => intro c k; simp [processRecords, lastEffF]
  | cons r rs ih =>
    intro c k
    rw [processRecords, List.foldl_cons]
    have := ih (processRecord c r) k
    rw [processRecords] at this
    rw [this, lookup_processRecord_lists, lastEffF]
    match hl : lastEffF listEff rs k with
    | some o => simp
    | none =>
      simp only [Option.getD_none]
      by_cases h : r.recordName = k
      · have h2 : k = r.recordName := h.symm
        rw [if_pos h, if_pos h2]
        match he : listEff r with
        | .skip => simp [applyEff]
        | .del => simp [applyEff]
        | .set v => simp [applyEff]
      · have h2 : ¬ k = r.recordName := fun he => h he.symm
        rw [if_neg h, if_neg h2]
        simp

theorem processRecords_token (rs : List CKRecord) :
    ∀ (c : Cache), (processRecords c rs).syncToken = c.syncToken ∧
      (processRecords c rs).ownerID = c.ownerID := by
  induction rs with
  | nil => intro c; exact ⟨rfl, rfl⟩
  | cons r rs ih =>
    intro c
    rw [processRecords, List.foldl_cons]
    have h1 := ih (processRecord c r)
    rw [processRecords] at h1
    have h2 := processRecord_token c r
    exact ⟨h1.1.trans h2.1, h1.2.trans h2.2⟩

/-- C6: folding the same changes page into a cache twice yields exactly the
same cache state as folding it once — per-key equality of the reminders and
lists maps (Go map equality), with the cursor and owner untouched —
because each record's effect is an upsert or delete computed from the record
alone, with the last write per key winning. -/
theorem c6_fold_idempotent (c : Cache) (page : List CKRecord) :
    (∀ k, lookupA (processRecords (processRecords c page) page).reminders k =
      lookupA (processRecords c page).reminders k) ∧
    (∀ k, lookupA (processRecords (processRecords c page) page).lists k =
      lookupA (processRecords c page).lists k) ∧
    (processRecords (processRecords c page) page).syncToken =
      (processRecords c page).syncToken ∧
    (processRecords (processRecords c page) page).ownerID =
      (processRecords c page).ownerID := by
  refine ⟨?_, ?_, (processRecords_token page _).1, (processRecords_token page _).2⟩
  · intro k
    rw [lookup_processRecords_rem, lookup_processRecords_rem]
    match hl : lastEffF remEff page k with
    | some o => simp
    | none => simp
  · intro k
    rw [lookup_processRecords_lists, lookup_processRecords_lists]
    match hl : lastEffF listEff page k with
    | some o => simp
    | none => simp

/-! ## Name and id lookups (go/sync/sync.go: toLower, FindListByName, FindReminderByID) -/

/-- Go `toLower`: byte-wise ASCII lowering over the string's UTF-8 bytes
(bytes outside `A`..`Z`, including every byte of a multi-byte character, are
untouched). -/
def toLowerB (bs : List Nat) : List Nat :=
  bs.map (fun b => if 65 ≤ b ∧ b ≤ 90 then b + 32 else b)

/-- Go `FindListByName`: first cached list whose `toLower`-ed name equals the
`toLower`-ed query (Go iterates its map in unspecified order; the association
list fixes one). -/
def findListByName (lists : List (String × String)) (name : String) : String :=
  match lists.find? (fun p =>
    toLowerB (utf8Encode p.2.data) = toLowerB (utf8Encode name.data)) with
  | some p => p.1
  | none => ""

/-- Go `FindReminderByID`: case-insensitive prefix match of the query against
the trailing segment (after the last '/') of each cached id; first match wins. -/
def tailSegment (bs : List Nat) : List Nat :=
  (bs.reverse.takeWhile (fun b => b ≠ 47)).reverse

def findReminderByID (reminders : List (String × ReminderData)) (partialID : String) :
    String :=
  match reminders.find? (fun p =>
    (toLowerB (utf8Encode partialID.data)).length ≤
        (tailSegment (utf8Encode p.1.data)).length ∧
      toLowerB ((tailSegment (utf8Encode p.1.data)).take
          (toLowerB (utf8Encode partialID.data)).length) =
        toLowerB (utf8Encode partialID.data)) with
  | some p => p.1
  | none => ""

/-- Rune-level ASCII case folding, the semantic counterpart of Go's byte-wise
`toLower`. -/
def asciiLowerChar (c : Char) : Char :=
  if 65 ≤ c.toNat ∧ c.toNat ≤ 90 then Char.ofNat (c.toNat + 32) else c

def asciiLowerStr (s : String) : String := String.mk (s.data.map asciiLowerChar)

theorem toNat_ofNat_small {m : Nat} (h : m < 55296) : (Char.ofNat m).toNat = m := by
  have hv : m.isValidChar := Or.inl h
  unfold Char.ofNat
  rw [dif_pos hv]
  rfl

theorem char_toNat_inj {a b : Char} (h : a.toNat = b.toNat) : a = b := by
  have ha := Char.ofNat_toNat a
  have hb := Char.ofNat_toNat b
  rw [← ha, ← hb, h]

theorem utf8Encode_inj {l1 l2 : List Char} (h : utf8Encode l1 = utf8Encode l2) :
    l1 = l2 := by
  have h2 : charSpans l1 = charSpans l2 := by
    rw [← rs_string_closed, ← rs_string_closed, h]
  have h3 : l1.map Char.toNat = l2.map Char.toNat := by
    have := congrArg (List.map Prod.fst) h2
    simpa [charSpans, List.map_map, Function.comp] using this
  have : l1.length = l2.length := by
    have := congrArg List.length h3
    simpa using this
  apply List.ext_getElem this
  intro i hi1 hi2
  apply char_toNat_inj
  have := congrArg (fun l => l.getD i 0) h3
  simpa [List.getD, List.getElem?_eq_getElem, hi1, hi2] using this

theorem toLowerB_char (c : Char) :
    toLowerB (utf8EncodeChar c) = utf8EncodeChar (asciiLowerChar c) := by
  by_cases h : 65 ≤ c.toNat ∧ c.toNat ≤ 90
  · have hlt : c.toNat < 128 := by omega
    have hval : (Char.ofNat (c.toNat + 32)).toNat = c.toNat + 32 :=
      toNat_ofNat_small (by omega)
    rw [asciiLowerChar, if_pos h]
    simp only [utf8EncodeChar, hval, hlt, if_pos (show c.toNat + 32 < 128 by omega)]
    simp [toLowerB, h]
  · rw [asciiLowerChar, if_neg h]
    by_cases hlt : c.toNat < 128
    · simp only [utf8EncodeChar, hlt, if_true]
      simp [toLowerB]
      omega
    · have hv := charValid c
      simp only [utf8EncodeChar]
      rw [if_neg hlt]
      by_cases h2 : c.toNat < 2048
      · rw [if_pos h2]
        simp [toLowerB]
        constructor <;> omega
      · rw [if_neg h2]
        by_cases h3 : c.toNat < 65536
        · rw [if_pos h3]
          simp [toLowerB]
          refine ⟨by omega, by omega, by omega⟩
        · rw [if_neg h3]
          simp [toLowerB]
          refine ⟨by omega, by omega, by omega, by omega⟩

theorem toLowerB_utf8 (l : List Char) :
    toLowerB (utf8Encode l) = utf8Encode (l.map asciiLowerChar) := by
  induction l with
  | nil => rfl
  | cons c cs ih =>
    rw [utf8Encode, List.map_cons, utf8Encode, ← ih, ← toLowerB_char, toLowerB,
      toLowerB, toLowerB, List.map_append]

theorem lowered_eq_iff (a b : String) :
    toLowerB (utf8Encode a.data) = toLowerB (utf8Encode b.data) ↔
      asciiLowerStr a = asciiLowerStr b := by
  rw [toLowerB_utf8, toLowerB_utf8]
  constructor
  · intro h
    have := utf8Encode_inj h
    rw [asciiLowerStr, asciiLowerStr, this]
  · intro h
    have : a.data.map asciiLowerChar = b.data.map asciiLowerChar :=
      congrArg String.data h
    rw [this]

/-- C9 counterexample: the cached list "É" is not found by the query "é",
although the two names differ only in case (the same +32 offset as ASCII);
`toLower` only folds ASCII bytes. -/
theorem c9_nonascii_case_not_found :
    findListByName [("List/L1", "É")] "é" = "" ∧ 'é'.toNat = 'É'.toNat + 32 := by
  constructor
  · rfl
  · decide

/-- C9 (amended): `FindListByName` is case-insensitive for ASCII letters only —
it returns an id whose cached name equals the query under ASCII case folding
(the first such entry), and returns "" exactly when no cached name matches
under ASCII folding; names differing only in non-ASCII case do not match. -/
theorem c9_find_list_ascii_fold (lists : List (String × String)) (name : String) :
    (∃ n, (findListByName lists name, n) ∈ lists ∧
      asciiLowerStr n = asciiLowerStr name) ∨
    (findListByName lists name = "" ∧
      ∀ p ∈ lists, asciiLowerStr p.2 ≠ asciiLowerStr name) := by
  rw [findListByName]
  match hf : lists.find? (fun p =>
      toLowerB (utf8Encode p.2.data) = toLowerB (utf8Encode name.data)) with
  | some p =>
    simp only [hf]
    left
    refine ⟨p.2, ?_, ?_⟩
    · have := List.mem_of_find?_eq_some hf
      simpa using this
    · have := List.find?_some hf
      simp only [decide_eq_true_eq] at this
      exact (lowered_eq_iff p.2 name).mp this
  | none =>
    simp only [hf]
    right
    refine ⟨trivial, ?_⟩
    intro p hp hcontra
    have := List.find?_eq_none.mp hf p hp
    simp only [decide_eq_true_eq] at this
    exact this ((lowered_eq_iff p.2 name).mpr hcontra)

/-- The ASCII case-folding lookup at a concrete input: the query "GROCERIES"
finds the list cached under the name "Groceries". -/
theorem c9_find_list_ascii_fold_witness :
    findListByName [("List/L1", "Groceries")] "GROCERIES" = "List/L1" := by
  rcases c9_find_list_ascii_fold [("List/L1", "Groceries")] "GROCERIES" with
    ⟨n, hmem, _⟩ | ⟨_, hall⟩
  · simp only [List.mem_singleton] at hmem
    exact congrArg Prod.fst hmem
  · exact absurd (by decide : asciiLowerStr "Groceries" = asciiLowerStr "GROCERIES")
      (hall ("List/L1", "Groceries") (by simp))

/-! ## The sync engine (go/sync/sync.go: Sync) -/

/-- One zone of a `changes/zone` response, as `Sync` reads it. -/
structure ZoneResp where
  records : List CKRecord := []
  moreComing : Bool := false
  syncToken : String := ""
deriving DecidableEq, Repr

/-- One `changes/zone` page: `Sync` uses `zones[0]` and stops on an empty
zone list. -/
structure PageResp where
  zones : List ZoneResp := []
deriving DecidableEq, Repr

/-- The fetch loop of Go `Sync`, with the network parameterized by the list
of responses successive `ChangesZone` calls would return (an exhausted oracle
is a transport failure).  Per page: stop on an empty zone list, fold the
records, record a non-empty new cursor, continue while `moreComing`. -/
def syncLoop : Cache → List (Except String PageResp) → Except String Cache
  | _, [] => .error "no response"
  | c, resp :: rest =>
    match resp with
    | .error e => .error e
    | .ok data =>
      match data.zones with
      | [] => .ok c
      | z :: _ =>
        let c1 := processRecords c z.records
        let c2 := if z.syncToken = "" then c1 else { c1 with syncToken := some z.syncToken }
        if z.moreComing then syncLoop c2 rest else .ok c2

/-- Go `Sync(force)`: on `force`, replace the cache with `NewCache()`; resolve
the owner id if missing (via the parameterized `GetOwnerID` response); then
run the fetch loop.  (The final `Cache.Save` is a disk write, not modelled.) -/
def syncGo (force : Bool) (cache : Cache) (ownerResp : Except String String)
    (pages : List (Except String PageResp)) : Except String Cache :=
  let c0 := if force then NewCache else cache
  if c0.ownerID = none ∨ c0.ownerID = some "" then
    match ownerResp with
    | .error e => .error e
    | .ok oid => syncLoop { c0 with ownerID := some oid } pages
  else syncLoop c0 pages

def rdSample : ReminderData := { title := "Call mom", changeTag := some "ct1" }

def cacheSample : Cache :=
  { reminders := [("Reminder/R1", rdSample)], lists := [("List/L1", "Groceries")],
    syncToken := some "tok0", ownerID := some "owner0" }

/-- C7 counterexample: forcing a sync over a cache holding one reminder, one
list, a cursor and an owner id, against a server returning an immediately-empty
page, yields a cache with EMPTY reminder and list maps and a re-fetched owner —
nothing but the fetched data survives, while the claim says only the cursor is
discarded and the maps and owner are preserved. -/
theorem c7_force_resets_whole_cache :
    syncGo true cacheSample (.ok "owner1") [.ok { zones := [] }] =
      .ok { reminders := [], lists := [], syncToken := none,
            ownerID := some "owner1" } ∧
    lookupA cacheSample.reminders "Reminder/R1" = some rdSample ∧
    lookupA cacheSample.lists "List/L1" = some "Groceries" ∧
    cacheSample.ownerID = some "owner0" := by
  refine ⟨rfl, rfl, rfl, rfl⟩

/-- C7 (amended): `Sync` with `force = true` replaces the whole cache with a
fresh empty cache before fetching — reminders, lists, cursor and owner id are
all discarded, so the result is independent of the prior cache state; the
owner id is then re-resolved and records are folded in record-by-record by
`processRecords` from empty. -/
theorem c7_force_ignores_prior_cache (c c' : Cache) (ownerResp : Except String String)
    (pages : List (Except String PageResp)) :
    syncGo true c ownerResp pages = syncGo true c' ownerResp pages := rfl

/-! ## The writer (internal/writer/writer.go)

`ModifyRecords` either returns the provider's decoded JSON, or (when the
transport call itself fails) a synthetic map whose only key is "error"; it
never returns a Go error.  A writer function's outcome is modelled as the
returned value, the resulting cache, the list of records-modify calls it
issued (each with its operations), and whether it persisted the cache. -/

/-- One record of a records-modify response body. -/
structure RespRecord where
  serverErrorCode : Option String := none
  reason : Option String := none
  recordChangeTag : Option String := none
deriving DecidableEq, Repr

/-- A decoded records-modify response: `transportError` is the top-level
"error" key `ModifyRecords` synthesizes on transport failure. -/
structure ModifyResp where
  transportError : Option String := none
  records : List RespRecord := []
deriving DecidableEq, Repr

/-- The error values the writer wraps into `errResult` maps.
`missingChangeTag` carries Go's staleness message "missing change tag for
... — try running sync first"; `reminderNotFound` carries "reminder ... not
found". -/
inductive WriterErr where
  | ownerErr (msg : String)
  | listNotFound (name : String)
  | parentNotFound (id : String)
  | reminderNotFound (id : String)
  | missingChangeTag (id : String)
  | recordError (code reason : String)
deriving DecidableEq, Repr

/-- One operation of a records-modify request. -/
structure CKOp where
  operationType : String := ""
  recordType : Option String := none
  recordName : String := ""
  recordChangeTag : Option String := none
  fields : List (String × FieldVal) := []
deriving DecidableEq, Repr

/-- Outcome of a writer call: result, cache afterwards, issued
records-modify calls, and whether `Cache.Save` ran. -/
structure WOut where
  res : Except WriterErr ModifyResp
  cache : Cache
  calls : List (List CKOp) := []
  saved : Bool := false
deriving Repr

/-- Go `Writer.ownerID()`: the cached owner id if present and non-empty,
otherwise the (parameterized) `GetOwnerID` fetch, cached on success. -/
def ownerOf (c : Cache) (ownerResp : Except String String) :
    Except String (Cache × String) :=
  match c.ownerID with
  | some o =>
    if o = "" then
      match ownerResp with
      | .error e => .error e
      | .ok oid => .ok ({ c with ownerID := some oid }, oid)
    else .ok (c, o)
  | none =>
    match ownerResp with
    | .error e => .error e
    | .ok oid => .ok ({ c with ownerID := some oid }, oid)

/-- Go `models.PriorityMap` (a missing key yields Go's zero value). -/
def priorityMap (p : String) : Int :=
  if p = "high" then 1 else if p = "medium" then 5 else if p = "low" then 9 else 0

/-- Go `checkRecordErrors`: the first record of the response carrying a
non-empty `serverErrorCode` (a response with no records — e.g. a transport
failure map — yields none). -/
def checkRecordErrors (resp : ModifyResp) : Option (String × String) :=
  match resp.records.find? (fun rec =>
    match rec.serverErrorCode with
    | some code => code ≠ ""
    | none => false) with
  | some rec => some (rec.serverErrorCode.getD "", rec.reason.getD "")
  | none => none

/-- Go `buildCreateOp`: the create operation for a new reminder.  The fresh
record name from `NewUUIDString` and the random uuids of the two
`EncodeTitle` calls are parameters.  An unparsable non-empty due date is
silently dropped (`if err == nil`). -/
def buildCreateOp (title listID parentRef dueDate : String) (priority : Int)
    (notes : String) (uuidT uuidN : List Nat) (recName : String) : CKOp :=
  let fields0 := [("TitleDocument", FieldVal.str (encodeTitle uuidT title)),
                  ("Completed", FieldVal.num 0)]
  let fields1 := if listID = "" then fields0 else fields0 ++ [("List", FieldVal.ref listID)]
  let fields2 := if parentRef = "" then fields1
    else fields1 ++ [("ParentReminder", FieldVal.ref parentRef)]
  let fields3 :=
    if dueDate = "" then fields2
    else match strToTs dueDate with
      | some ts => fields2 ++ [("DueDate", FieldVal.num ts)]
      | none => fields2
  let fields4 := if priority = 0 then fields3 else fields3 ++ [("Priority", FieldVal.num priority)]
  let fields5 := if notes = "" then fields4
    else fields4 ++ [("NotesDocument", FieldVal.str (encodeTitle uuidN notes))]
  { operationType := "create", recordType := some "Reminder", recordName := recName,
    fields := fields5 }

/-- The change tag of the first response record, if the key is a string
(`rec["recordChangeTag"].(string)`); `keep` otherwise. -/
def tagFromResp (resp : ModifyResp) (keep : Option String) : Option String :=
  match resp.records.head? with
  | some rec =>
    match rec.recordChangeTag with
    | some ct => some ct
    | none => keep
  | none => keep

/-- Go `CompleteReminder`: resolve the (possibly partial) id, require a
cached non-empty change tag, issue the update, and — unless the response map
carries the top-level "error" key — mark completed, stamp the completion
date, refresh the change tag and persist.  An in-band record-level error
(`serverErrorCode` in `records`) is NOT inspected on this path. -/
def completeReminder (c : Cache) (reminderID : String) (now : Int)
    (ownerResp : Except String String) (resp : ModifyResp) : WOut :=
  match ownerOf c ownerResp with
  | .error e => ⟨.error (.ownerErr e), c, [], false⟩
  | .ok (c1, _) =>
    let fullID := findReminderByID c1.reminders reminderID
    if fullID = "" then ⟨.error (.reminderNotFound reminderID), c1, [], false⟩
    else
      match lookupA c1.reminders fullID with
      | none => ⟨.error (.missingChangeTag reminderID), c1, [], false⟩
      | some rd =>
        if rd.changeTag = none ∨ rd.changeTag = some "" then
          ⟨.error (.missingChangeTag reminderID), c1, [], false⟩
        else
          let op : CKOp :=
            { operationType := "update", recordType := some "Reminder",
              recordName := fullID, recordChangeTag := rd.changeTag,
              fields := [("Completed", FieldVal.boolV true),
                         ("CompletionDate", FieldVal.num now)] }
          if resp.transportError = none then
            let rd2 :=
              { rd with
                completed := true,
                completionDate := some (tsToStr now),
                changeTag := tagFromResp resp rd.changeTag }
            ⟨.ok resp, { c1 with reminders := upsertA c1.reminders fullID rd2 },
              [[op]], true⟩
          else ⟨.ok resp, c1, [[op]], false⟩

/-- Go `DeleteReminder`: same staleness guard; on a response without the
top-level "error" key, remove the entry and persist.  Record-level errors are
NOT inspected on this path either. -/
def deleteReminder (c : Cache) (reminderID : String)
    (ownerResp : Except String String) (resp : ModifyResp) : WOut :=
  match ownerOf c ownerResp with
  | .error e => ⟨.error (.ownerErr e), c, [], false⟩
  | .ok (c1, _) =>
    let fullID := findReminderByID c1.reminders reminderID
    if fullID = "" then ⟨.error (.reminderNotFound reminderID), c1, [], false⟩
    else
      match lookupA c1.reminders fullID with
      | none => ⟨.error (.missingChangeTag reminderID), c1, [], false⟩
      | some rd =>
        if rd.changeTag = none ∨ rd.changeTag = some "" then
          ⟨.error (.missingChangeTag reminderID), c1, [], false⟩
        else
          let op : CKOp :=
            { operationType := "delete", recordName := fullID,
              recordChangeTag := rd.changeTag }
          if resp.transportError = none then
            ⟨.ok resp, { c1 with reminders := removeA c1.reminders fullID },
              [[op]], true⟩
          else ⟨.ok resp, c1, [[op]], false⟩

/-- Go `AddReminder`: resolve list and parent (inheriting the parent's list
when no list was named), build the create operation, submit it, reject a
record-level error, otherwise synthesize the local cache entry — storing the
due-date STRING as given — capture a non-empty response change tag, and
persist. -/
def addReminder (c : Cache) (title listName dueDate priority notes parentID : String)
    (uuidT uuidN : List Nat) (recName : String) (now : Int)
    (ownerResp : Except String String) (resp : ModifyResp) : WOut :=
  match ownerOf c ownerResp with
  | .error e => ⟨.error (.ownerErr e), c, [], false⟩
  | .ok (c1, _) =>
    let listID0 := if listName = "" then "" else findListByName c1.lists listName
    if ¬ listName = "" ∧ listID0 = "" then
      ⟨.error (.listNotFound listName), c1, [], false⟩
    else
      let parentRef := if parentID = "" then "" else findReminderByID c1.reminders parentID
      if ¬ parentID = "" ∧ parentRef = "" then
        ⟨.error (.parentNotFound parentID), c1, [], false⟩
      else
        let listID :=
          if listID0 = "" ∧ ¬ parentRef = "" then
            match lookupA c1.reminders parentRef with
            | some pd => pd.listRef.getD ""
            | none => ""
          else listID0
        let priorityVal := priorityMap priority
        let op := buildCreateOp title listID parentRef dueDate priorityVal notes
          uuidT uuidN recName
        match checkRecordErrors resp with
        | some codeReason => ⟨.error (.recordError codeReason.1 codeReason.2), c1,
            [[op]], false⟩
        | none =>
          let rd : ReminderData :=
            { title := title, priority := priorityVal,
              due := if dueDate = "" then none else some dueDate,
              notes := if notes = "" then none else some notes,
              listRef := if listID = "" then none else some listID,
              parentRef := if parentRef = "" then none else some parentRef,
              modifiedTS := some now,
              changeTag := match tagFromResp resp none with
                | some ct => if ct = "" then none else some ct
                | none => none }
          ⟨.ok resp, { c1 with reminders := upsertA c1.reminders recName rd },
            [[op]], true⟩

/-! ## C2: the staleness guard of CompleteReminder / DeleteReminder -/

/-- A cache holding a resolvable reminder whose change tag is the empty
string — the stale state the guard must reject. -/
def cacheStale : Cache :=
  { ownerID := some "own",
    reminders := [("Reminder/R1", { title := "Pay rent", changeTag := some "" })] }

/-- C2 counterexample: for an id with NO cached record at all, both writers
fail with the "reminder not found" error, not the staleness ("run sync
first") error the claim promises — the two `errResult` messages are distinct
error values.  (No records-modify call is issued, as claimed.) -/
theorem c2_absent_record_not_staleness :
    (completeReminder { ownerID := some "own" } "AB" 0 (.error "net") {}).res =
      .error (.reminderNotFound "AB") ∧
    (deleteReminder { ownerID := some "own" } "AB" (.error "net") {}).res =
      .error (.reminderNotFound "AB") ∧
    WriterErr.reminderNotFound "AB" ≠ WriterErr.missingChangeTag "AB" ∧
    (completeReminder { ownerID := some "own" } "AB" 0 (.error "net") {}).calls = [] ∧
    (deleteReminder { ownerID := some "own" } "AB" (.error "net") {}).calls = [] := by
  refine ⟨rfl, rfl, by decide, rfl, rfl⟩

/-- C2 (amended): after the owner id resolves, an id that does not resolve to
any cached record makes both `CompleteReminder` and `DeleteReminder` fail
with the "reminder not found" error, and an id that resolves to a record
whose change tag is missing or empty makes both fail with the staleness
("run sync first") error; in all these cases no records-modify call is
issued, the cache is unchanged and nothing is persisted. -/
theorem c2_stale_tag_guard (c c1 : Cache) (id oid : String) (now : Int)
    (oResp : Except String String) (resp : ModifyResp)
    (hown : ownerOf c oResp = .ok (c1, oid)) :
    (findReminderByID c1.reminders id = "" →
      completeReminder c id now oResp resp =
          ⟨.error (.reminderNotFound id), c1, [], false⟩ ∧
        deleteReminder c id oResp resp =
          ⟨.error (.reminderNotFound id), c1, [], false⟩) ∧
    (∀ rd : ReminderData, ¬ findReminderByID c1.reminders id = "" →
      lookupA c1.reminders (findReminderByID c1.reminders id) = some rd →
      (rd.changeTag = none ∨ rd.changeTag = some "") →
      completeReminder c id now oResp resp =
          ⟨.error (.missingChangeTag id), c1, [], false⟩ ∧
        deleteReminder c id oResp resp =
          ⟨.error (.missingChangeTag id), c1, [], false⟩) := by
  constructor
  · intro h
    constructor
    · simp only [completeReminder, hown]
      rw [if_pos h]
    · simp only [deleteReminder, hown]
      rw [if_pos h]
  · intro rd hne hlook hor
    constructor
    · simp only [completeReminder, hown]
      rw [if_neg hne]
      simp only [hlook]
      rw [if_pos hor]
    · simp only [deleteReminder, hown]
      rw [if_neg hne]
      simp only [hlook]
      rw [if_pos hor]

/-- The stale-cache guard at a concrete input: id "R1" resolves to
"Reminder/R1" whose change tag is the empty string, and both writers stop
with the staleness error without touching anything. -/
theorem c2_stale_tag_guard_witness :
    completeReminder cacheStale "R1" 0 (.error "net") {} =
        ⟨.error (.missingChangeTag "R1"), cacheStale, [], false⟩ ∧
      deleteReminder cacheStale "R1" (.error "net") {} =
        ⟨.error (.missingChangeTag "R1"), cacheStale, [], false⟩ :=
  (c2_stale_tag_guard cacheStale cacheStale "R1" "own" 0 (.error "net") {} rfl).2
    { title := "Pay rent", changeTag := some "" } (by decide) rfl (Or.inr rfl)

/-! ## C3: in-band record-level errors on the complete / delete path -/

/-- A transport-successful records-modify response whose body carries a
record-level provider error — exactly the shape `checkRecordErrors` (used by
`AddReminder`) classifies as an error. -/
def respConflict : ModifyResp :=
  { records := [{ serverErrorCode := some "CONFLICT", reason := some "record changed" }] }

/-- A cache with one completable reminder carrying a valid change tag. -/
def cacheC3 : Cache :=
  { ownerID := some "own",
    reminders := [("Reminder/RID1", { title := "Pay rent", changeTag := some "tag1" })] }

/-- C3: the code does NOT leave the cache untouched on an in-band
record-level error.  `respConflict` is an in-band record error by the code's
own classifier (`checkRecordErrors`), yet — because `CompleteReminder` and
`DeleteReminder` only test the top-level "error" key — `CompleteReminder`
still marks the reminder completed, stamps the completion date and persists,
and `DeleteReminder` still removes the entry and persists. -/
theorem c3_inband_error_still_mutates :
    checkRecordErrors respConflict = some ("CONFLICT", "record changed") ∧
    respConflict.transportError = none ∧
    (completeReminder cacheC3 "RID1" 86400000 (.error "net") respConflict).saved = true ∧
    lookupA (completeReminder cacheC3 "RID1" 86400000
          (.error "net") respConflict).cache.reminders "Reminder/RID1" =
      some { title := "Pay rent", completed := true,
             completionDate := some "1970-01-02", changeTag := some "tag1" } ∧
    (deleteReminder cacheC3 "RID1" (.error "net") respConflict).saved = true ∧
    lookupA (deleteReminder cacheC3 "RID1"
        (.error "net") respConflict).cache.reminders "Reminder/RID1" = none := by
  refine ⟨rfl, rfl, rfl, ?_, rfl, ?_⟩
  · rfl
  · rfl

/-! ## C10: AddReminder with an unparsable due date -/

theorem lookupA_append_ne {α : Type} (l : List (String × α)) (kx : String)
    (vx : α) (k : String) (hx : ¬ kx = k) :
    lookupA (l ++ [(kx, vx)]) k = lookupA l k := by
  induction l with
  | nil =>
    simp only [List.nil_append, lookupA]
    rw [if_neg hx]
  | cons p t ih =>
    obtain ⟨k0, v0⟩ := p
    rw [List.cons_append, lookupA, lookupA]
    by_cases h : k0 = k
    · simp [h]
    · simp [h, ih]

/-- When the due date does not parse, no "DueDate" field is put into the
create operation (the `if err == nil` in `buildCreateOp` silently drops it). -/
theorem buildCreateOp_no_due (title listID parentRef dueDate : String)
    (priority : Int) (notes : String) (uuidT uuidN : List Nat) (recName : String)
    (hparse : strToTs dueDate = none) :
    lookupA (buildCreateOp title listID parentRef dueDate priority notes
        uuidT uuidN recName).fields "DueDate" = none := by
  simp only [buildCreateOp, hparse]
  split <;> split <;> split <;> split <;> split <;>
    simp [lookupA_append_ne _ _ _ _ (by decide : ¬ ("NotesDocument" : String) = "DueDate"),
      lookupA_append_ne _ _ _ _ (by decide : ¬ ("Priority" : String) = "DueDate"),
      lookupA_append_ne _ _ _ _ (by decide : ¬ ("ParentReminder" : String) = "DueDate"),
      lookupA_append_ne _ _ _ _ (by decide : ¬ ("List" : String) = "DueDate"),
      lookupA]

/-- C10: when the due-date string is non-empty but unparsable, `AddReminder`
still succeeds: it submits exactly one create operation that carries NO
"DueDate" field, surfaces no error for the invalid date, persists, and the
synthesized cache entry nevertheless stores the raw unparsed string as its
due date. -/
theorem c10_invalid_due_dropped_but_cached
    (c c1 : Cache) (oid : String)
    (title listName dueDate priority notes parentID : String)
    (uuidT uuidN : List Nat) (recName : String) (now : Int)
    (oResp : Except String String) (resp : ModifyResp)
    (hown : ownerOf c oResp = .ok (c1, oid))
    (hno : checkRecordErrors resp = none)
    (hdue : ¬ dueDate = "") (hparse : strToTs dueDate = none)
    (hlist : listName = "" ∨ ¬ findListByName c1.lists listName = "")
    (hpar : parentID = "" ∨ ¬ findReminderByID c1.reminders parentID = "") :
    (addReminder c title listName dueDate priority notes parentID
        uuidT uuidN recName now oResp resp).res = .ok resp ∧
    (addReminder c title listName dueDate priority notes parentID
        uuidT uuidN recName now oResp resp).saved = true ∧
    (∃ op, (addReminder c title listName dueDate priority notes parentID
          uuidT uuidN recName now oResp resp).calls = [[op]] ∧
      op.operationType = "create" ∧ lookupA op.fields "DueDate" = none) ∧
    Option.map ReminderData.due
        (lookupA (addReminder c title listName dueDate priority notes parentID
          uuidT uuidN recName now oResp resp).cache.reminders recName) =
      some (some dueDate) := by
  have hgl : ¬ (¬ listName = "" ∧
      (if listName = "" then "" else findListByName c1.lists listName) = "") := by
    rcases hlist with h | h
    · intro hc
      exact hc.1 h
    · intro hc
      rw [if_neg hc.1] at hc
      exact h hc.2
  have hgp : ¬ (¬ parentID = "" ∧
      (if parentID = "" then "" else findReminderByID c1.reminders parentID) = "") := by
    rcases hpar with h | h
    · intro hc
      exact hc.1 h
    · intro hc
      rw [if_neg hc.1] at hc
      exact h hc.2
  simp only [addReminder, hown]
  rw [if_neg hgl, if_neg hgp]
  simp only [hno]
  refine ⟨trivial, trivial, ⟨_, rfl, rfl, buildCreateOp_no_due _ _ _ _ _ _ _ _ _ hparse⟩, ?_⟩
  rw [lookupA_upsert, if_pos rfl]
  show some (if dueDate = "" then none else some dueDate) = some (some dueDate)
  rw [if_neg hdue]

/-- The C10 behaviour at a concrete input: due string "not-a-date" does not
parse, is absent from the submitted operation, and is stored verbatim in the
new cache entry. -/
theorem c10_invalid_due_dropped_but_cached_witness :
    strToTs "not-a-date" = none ∧
    Option.map ReminderData.due
        (lookupA (addReminder { ownerID := some "own" } "Buy milk" ""
          "not-a-date" "" "" "" uuidZero uuidZero "R-NEW" 0
          (.error "net") {}).cache.reminders "R-NEW") =
      some (some "not-a-date") ∧
    (∃ op, (addReminder { ownerID := some "own" } "Buy milk" ""
          "not-a-date" "" "" "" uuidZero uuidZero "R-NEW" 0
          (.error "net") {}).calls = [[op]] ∧
      op.operationType = "create" ∧ lookupA op.fields "DueDate" = none) :=
  ⟨rfl,
    (c10_invalid_due_dropped_but_cached { ownerID := some "own" }
      { ownerID := some "own" } "own" "Buy milk" "" "not-a-date" "" "" ""
      uuidZero uuidZero "R-NEW" 0 (.error "net") {} rfl rfl (by decide) rfl
      (Or.inl rfl) (Or.inl rfl)).2.2.2,
    (c10_invalid_due_dropped_but_cached { ownerID := some "own" }
      { ownerID := some "own" } "own" "Buy milk" "" "not-a-date" "" "" ""
      uuidZero uuidZero "R-NEW" 0 (.error "net") {} rfl rfl (by decide) rfl
      (Or.inl rfl) (Or.inl rfl)).2.2.1⟩

end ICR
